import Mathlib

/-!
# Lifecycle of `cmd/main.go`

A shallow embedding of the bootstrap (`init`, `main`) and of the shutdown
closure that `main` hands to `awaitReload`, together with the key mapping
that `init` applies to environment variables.

Go strings are byte strings (`List Byte`), read as UTF-8 where the library
does so; a run of the program is the sequence of the calls it makes
(`Event`) and the way it ends (`Outcome`).
-/

namespace Listmonk

/-! ## Environment-variable key mapping (`init`, lines 104-107)

Go strings are byte strings; `strings.ToLower` reads them as UTF-8 and
rewrites a byte that is not part of a valid encoding as `utf8.RuneError`. -/

/-- A byte of a Go string. -/
abbrev Byte := Fin 256

/-- Go `byte(n)`: the low eight bits of `n`. -/
def byte (n : Nat) : Byte := ⟨n % 256, Nat.mod_lt n (by decide)⟩

/-- Go `utf8.RuneError`, U+FFFD. -/
def runeError : Char := Char.ofNat 0xFFFD

/-- Go `utf8.EncodeRune` on a valid rune: one to four bytes (a `Char` is
never a surrogate nor above U+10FFFF, the runes Go encodes as
`RuneError`). -/
def encodeRune (c : Char) : List Byte :=
  if c.toNat ≤ 0x7F then [byte c.toNat]
  else if c.toNat ≤ 0x7FF then [byte (0xC0 + c.toNat / 64), byte (0x80 + c.toNat % 64)]
  else if c.toNat ≤ 0xFFFF then
    [byte (0xE0 + c.toNat / 4096), byte (0x80 + c.toNat / 64 % 64), byte (0x80 + c.toNat % 64)]
  else
    [byte (0xF0 + c.toNat / 262144), byte (0x80 + c.toNat / 4096 % 64),
      byte (0x80 + c.toNat / 64 % 64), byte (0x80 + c.toNat % 64)]

/-- Go `utf8.DecodeRuneInString`: the first rune of `s` and its width in
bytes; `(RuneError, 0)` for the empty string and `(RuneError, 1)` for a byte
that starts no valid encoding (a stray continuation byte, an overlong or
truncated sequence, a surrogate, a value above U+10FFFF).  The second byte is
checked against the accept range of the first, as in the table `first`. -/
def decodeRune : List Byte → Char × Nat
  | [] => (runeError, 0)
  | b0 :: rest =>
    if b0.val < 0x80 then (Char.ofNat b0.val, 1)
    else if b0.val < 0xC2 then (runeError, 1)
    else if b0.val < 0xE0 then
      match rest with
      | b1 :: _ =>
        if 0x80 ≤ b1.val ∧ b1.val ≤ 0xBF then
          (Char.ofNat (b0.val % 32 * 64 + b1.val % 64), 2)
        else (runeError, 1)
      | [] => (runeError, 1)
    else if b0.val < 0xF0 then
      match rest with
      | b1 :: b2 :: _ =>
        if (if b0.val = 0xE0 then 0xA0 else 0x80) ≤ b1.val
            ∧ b1.val ≤ (if b0.val = 0xED then 0x9F else 0xBF)
            ∧ 0x80 ≤ b2.val ∧ b2.val ≤ 0xBF then
          (Char.ofNat (b0.val % 16 * 4096 + b1.val % 64 * 64 + b2.val % 64), 3)
        else (runeError, 1)
      | _ => (runeError, 1)
    else if b0.val < 0xF5 then
      match rest with
      | b1 :: b2 :: b3 :: _ =>
        if (if b0.val = 0xF0 then 0x90 else 0x80) ≤ b1.val
            ∧ b1.val ≤ (if b0.val = 0xF4 then 0x8F else 0xBF)
            ∧ 0x80 ≤ b2.val ∧ b2.val ≤ 0xBF ∧ 0x80 ≤ b3.val ∧ b3.val ≤ 0xBF then
          (Char.ofNat (b0.val % 8 * 262144 + b1.val % 64 * 4096 + b2.val % 64 * 64
            + b3.val % 64), 4)
        else (runeError, 1)
      | _ => (runeError, 1)
    else (runeError, 1)

/-- Go `string(rs)` for a slice of valid runes: their encodings in a row. -/
def encodeRunes (rs : List Char) : List Byte :=
  (rs.map encodeRune).flatten

/-- The bytes of a string literal of the source, which is UTF-8. -/
def utf8 (s : String) : List Byte :=
  encodeRunes s.toList

/-- Go `[]rune(s)`: the runes a `range` over `s` yields, `RuneError` for
every byte that is not part of a valid encoding (`skip` counts the bytes of
the current rune still to jump over). -/
def runesFrom : Nat → List Byte → List Char
  | _, [] => []
  | skip + 1, _ :: bs => runesFrom skip bs
  | 0, b :: bs => (decodeRune (b :: bs)).1 :: runesFrom ((decodeRune (b :: bs)).2 - 1) bs

/-- Go `[]rune(s)`. -/
def runes (s : List Byte) : List Char :=
  runesFrom 0 s

/-- The loop of Go `strings.Map(mapping, s)` for a mapping that drops no
rune: every rune the `range` yields is replaced by the encoding of its
image (runes the mapping leaves alone are copied, which is the same bytes);
`skip` counts the bytes of the current rune still to jump over. -/
def mapFrom (mapping : Char → Char) : Nat → List Byte → List Byte
  | _, [] => []
  | skip + 1, _ :: bs => mapFrom mapping skip bs
  | 0, b :: bs =>
    encodeRune (mapping (decodeRune (b :: bs)).1)
      ++ mapFrom mapping ((decodeRune (b :: bs)).2 - 1) bs

/-- Go `strings.Map(mapping, s)`. -/
def mapString (mapping : Char → Char) (s : List Byte) : List Byte :=
  mapFrom mapping 0 s

/-- The ASCII branch of `strings.ToLower`: `c += 'a' - 'A'` on a capital. -/
def lowerByte (b : Byte) : Byte :=
  if 0x41 ≤ b.val ∧ b.val ≤ 0x5A then byte (b.val + 32) else b

/-- Go `strings.ToLower(s)`: a string of ASCII bytes only is returned as it
is when it has no capital and with its capitals lowered otherwise; any other
string goes through `strings.Map(unicode.ToLower, s)`.  The Unicode case
table belongs to the Go runtime, so `unicode.ToLower` is the parameter
`lower`. -/
def toLower (lower : Char → Char) (s : List Byte) : List Byte :=
  if s.all (fun b => decide (b.val < 0x80)) then
    if s.any (fun b => decide (0x41 ≤ b.val ∧ b.val ≤ 0x5A)) then s.map lowerByte else s
  else mapString lower s

/-- Go `strings.TrimPrefix(s, pre)`: `s` without the leading `pre` when it has
one, `s` itself otherwise. -/
def trimPrefix (pre s : List Byte) : List Byte :=
  if pre.isPrefixOf s then s.drop pre.length else s

/-- The loop of Go `strings.Replace(s, old, new, -1)` for a non-empty `old`:
scan from the left, at every position where `old` starts emit `new` and jump
over `old` (`skip` counts the bytes of a match still to jump over). -/
def replaceFrom (old new : List Byte) : Nat → List Byte → List Byte
  | _, [] => []
  | skip + 1, _ :: cs => replaceFrom old new skip cs
  | 0, c :: cs =>
    if old.isPrefixOf (c :: cs) then new ++ replaceFrom old new (old.length - 1) cs
    else c :: replaceFrom old new 0 cs

/-- Go `strings.Replace(s, old, new, -1)` for a non-empty `old`: every
non-overlapping occurrence of `old`, from left to right, replaced by `new`. -/
def replaceAll (old new s : List Byte) : List Byte :=
  replaceFrom old new 0 s

/-- The prefix handed to `env.Provider` and to `strings.TrimPrefix`. -/
def envPrefix : List Byte := utf8 "LISTMONK_"

/-- The callback of `env.Provider` in `init`:
`strings.Replace(strings.ToLower(strings.TrimPrefix(s, "LISTMONK_")), "__", ".", -1)`. -/
def envKey (lower : Char → Char) (s : List Byte) : List Byte :=
  replaceAll (utf8 "__") (utf8 ".") (toLower lower (trimPrefix envPrefix s))

/-! ### The Unicode tables of the Go runtime

`unicode.ToLower` and `unicode.IsUpper` are computed from tables that the Go
runtime generates from the Unicode Character Database.  The two tables below
are the simple lowercase mappings and the category `Lu` of version 14.0.0 of
that database. -/

/-- The simple lowercase mappings: an entry `(lo, hi, stride, tgt)` maps the
runes `lo, lo + stride, ..., hi` to `tgt, tgt + stride, ...`. -/
def lowerTable : List (Nat × Nat × Nat × Nat) :=
  [
   (0x41, 0x5A, 1, 0x61), (0xC0, 0xD6, 1, 0xE0), (0xD8, 0xDE, 1, 0xF8), (0x100, 0x12E, 2, 0x101), (0x130, 0x130, 1, 0x69),
   (0x132, 0x136, 2, 0x133), (0x139, 0x147, 2, 0x13A), (0x14A, 0x176, 2, 0x14B), (0x178, 0x178, 1, 0xFF), (0x179, 0x17D, 2, 0x17A),
   (0x181, 0x181, 1, 0x253), (0x182, 0x184, 2, 0x183), (0x186, 0x186, 1, 0x254), (0x187, 0x187, 1, 0x188), (0x189, 0x18A, 1, 0x256),
   (0x18B, 0x18B, 1, 0x18C), (0x18E, 0x18E, 1, 0x1DD), (0x18F, 0x18F, 1, 0x259), (0x190, 0x190, 1, 0x25B), (0x191, 0x191, 1, 0x192),
   (0x193, 0x193, 1, 0x260), (0x194, 0x194, 1, 0x263), (0x196, 0x196, 1, 0x269), (0x197, 0x197, 1, 0x268), (0x198, 0x198, 1, 0x199),
   (0x19C, 0x19C, 1, 0x26F), (0x19D, 0x19D, 1, 0x272), (0x19F, 0x19F, 1, 0x275), (0x1A0, 0x1A4, 2, 0x1A1), (0x1A6, 0x1A6, 1, 0x280),
   (0x1A7, 0x1A7, 1, 0x1A8), (0x1A9, 0x1A9, 1, 0x283), (0x1AC, 0x1AC, 1, 0x1AD), (0x1AE, 0x1AE, 1, 0x288), (0x1AF, 0x1AF, 1, 0x1B0),
   (0x1B1, 0x1B2, 1, 0x28A), (0x1B3, 0x1B5, 2, 0x1B4), (0x1B7, 0x1B7, 1, 0x292), (0x1B8, 0x1B8, 1, 0x1B9), (0x1BC, 0x1BC, 1, 0x1BD),
   (0x1C4, 0x1C4, 1, 0x1C6), (0x1C5, 0x1C5, 1, 0x1C6), (0x1C7, 0x1C7, 1, 0x1C9), (0x1C8, 0x1C8, 1, 0x1C9), (0x1CA, 0x1CA, 1, 0x1CC),
   (0x1CB, 0x1DB, 2, 0x1CC), (0x1DE, 0x1EE, 2, 0x1DF), (0x1F1, 0x1F1, 1, 0x1F3), (0x1F2, 0x1F4, 2, 0x1F3), (0x1F6, 0x1F6, 1, 0x195),
   (0x1F7, 0x1F7, 1, 0x1BF), (0x1F8, 0x21E, 2, 0x1F9), (0x220, 0x220, 1, 0x19E), (0x222, 0x232, 2, 0x223), (0x23A, 0x23A, 1, 0x2C65),
   (0x23B, 0x23B, 1, 0x23C), (0x23D, 0x23D, 1, 0x19A), (0x23E, 0x23E, 1, 0x2C66), (0x241, 0x241, 1, 0x242), (0x243, 0x243, 1, 0x180),
   (0x244, 0x244, 1, 0x289), (0x245, 0x245, 1, 0x28C), (0x246, 0x24E, 2, 0x247), (0x370, 0x372, 2, 0x371), (0x376, 0x376, 1, 0x377),
   (0x37F, 0x37F, 1, 0x3F3), (0x386, 0x386, 1, 0x3AC), (0x388, 0x38A, 1, 0x3AD), (0x38C, 0x38C, 1, 0x3CC), (0x38E, 0x38F, 1, 0x3CD),
   (0x391, 0x3A1, 1, 0x3B1), (0x3A3, 0x3AB, 1, 0x3C3), (0x3CF, 0x3CF, 1, 0x3D7), (0x3D8, 0x3EE, 2, 0x3D9), (0x3F4, 0x3F4, 1, 0x3B8),
   (0x3F7, 0x3F7, 1, 0x3F8), (0x3F9, 0x3F9, 1, 0x3F2), (0x3FA, 0x3FA, 1, 0x3FB), (0x3FD, 0x3FF, 1, 0x37B), (0x400, 0x40F, 1, 0x450),
   (0x410, 0x42F, 1, 0x430), (0x460, 0x480, 2, 0x461), (0x48A, 0x4BE, 2, 0x48B), (0x4C0, 0x4C0, 1, 0x4CF), (0x4C1, 0x4CD, 2, 0x4C2),
   (0x4D0, 0x52E, 2, 0x4D1), (0x531, 0x556, 1, 0x561), (0x10A0, 0x10C5, 1, 0x2D00), (0x10C7, 0x10C7, 1, 0x2D27), (0x10CD, 0x10CD, 1, 0x2D2D),
   (0x13A0, 0x13EF, 1, 0xAB70), (0x13F0, 0x13F5, 1, 0x13F8), (0x1C90, 0x1CBA, 1, 0x10D0), (0x1CBD, 0x1CBF, 1, 0x10FD), (0x1E00, 0x1E94, 2, 0x1E01),
   (0x1E9E, 0x1E9E, 1, 0xDF), (0x1EA0, 0x1EFE, 2, 0x1EA1), (0x1F08, 0x1F0F, 1, 0x1F00), (0x1F18, 0x1F1D, 1, 0x1F10), (0x1F28, 0x1F2F, 1, 0x1F20),
   (0x1F38, 0x1F3F, 1, 0x1F30), (0x1F48, 0x1F4D, 1, 0x1F40), (0x1F59, 0x1F5F, 2, 0x1F51), (0x1F68, 0x1F6F, 1, 0x1F60), (0x1F88, 0x1F8F, 1, 0x1F80),
   (0x1F98, 0x1F9F, 1, 0x1F90), (0x1FA8, 0x1FAF, 1, 0x1FA0), (0x1FB8, 0x1FB9, 1, 0x1FB0), (0x1FBA, 0x1FBB, 1, 0x1F70), (0x1FBC, 0x1FBC, 1, 0x1FB3),
   (0x1FC8, 0x1FCB, 1, 0x1F72), (0x1FCC, 0x1FCC, 1, 0x1FC3), (0x1FD8, 0x1FD9, 1, 0x1FD0), (0x1FDA, 0x1FDB, 1, 0x1F76), (0x1FE8, 0x1FE9, 1, 0x1FE0),
   (0x1FEA, 0x1FEB, 1, 0x1F7A), (0x1FEC, 0x1FEC, 1, 0x1FE5), (0x1FF8, 0x1FF9, 1, 0x1F78), (0x1FFA, 0x1FFB, 1, 0x1F7C), (0x1FFC, 0x1FFC, 1, 0x1FF3),
   (0x2126, 0x2126, 1, 0x3C9), (0x212A, 0x212A, 1, 0x6B), (0x212B, 0x212B, 1, 0xE5), (0x2132, 0x2132, 1, 0x214E), (0x2160, 0x216F, 1, 0x2170),
   (0x2183, 0x2183, 1, 0x2184), (0x24B6, 0x24CF, 1, 0x24D0), (0x2C00, 0x2C2F, 1, 0x2C30), (0x2C60, 0x2C60, 1, 0x2C61), (0x2C62, 0x2C62, 1, 0x26B),
   (0x2C63, 0x2C63, 1, 0x1D7D), (0x2C64, 0x2C64, 1, 0x27D), (0x2C67, 0x2C6B, 2, 0x2C68), (0x2C6D, 0x2C6D, 1, 0x251), (0x2C6E, 0x2C6E, 1, 0x271),
   (0x2C6F, 0x2C6F, 1, 0x250), (0x2C70, 0x2C70, 1, 0x252), (0x2C72, 0x2C72, 1, 0x2C73), (0x2C75, 0x2C75, 1, 0x2C76), (0x2C7E, 0x2C7F, 1, 0x23F),
   (0x2C80, 0x2CE2, 2, 0x2C81), (0x2CEB, 0x2CED, 2, 0x2CEC), (0x2CF2, 0x2CF2, 1, 0x2CF3), (0xA640, 0xA66C, 2, 0xA641), (0xA680, 0xA69A, 2, 0xA681),
   (0xA722, 0xA72E, 2, 0xA723), (0xA732, 0xA76E, 2, 0xA733), (0xA779, 0xA77B, 2, 0xA77A), (0xA77D, 0xA77D, 1, 0x1D79), (0xA77E, 0xA786, 2, 0xA77F),
   (0xA78B, 0xA78B, 1, 0xA78C), (0xA78D, 0xA78D, 1, 0x265), (0xA790, 0xA792, 2, 0xA791), (0xA796, 0xA7A8, 2, 0xA797), (0xA7AA, 0xA7AA, 1, 0x266),
   (0xA7AB, 0xA7AB, 1, 0x25C), (0xA7AC, 0xA7AC, 1, 0x261), (0xA7AD, 0xA7AD, 1, 0x26C), (0xA7AE, 0xA7AE, 1, 0x26A), (0xA7B0, 0xA7B0, 1, 0x29E),
   (0xA7B1, 0xA7B1, 1, 0x287), (0xA7B2, 0xA7B2, 1, 0x29D), (0xA7B3, 0xA7B3, 1, 0xAB53), (0xA7B4, 0xA7C2, 2, 0xA7B5), (0xA7C4, 0xA7C4, 1, 0xA794),
   (0xA7C5, 0xA7C5, 1, 0x282), (0xA7C6, 0xA7C6, 1, 0x1D8E), (0xA7C7, 0xA7C9, 2, 0xA7C8), (0xA7D0, 0xA7D0, 1, 0xA7D1), (0xA7D6, 0xA7D8, 2, 0xA7D7),
   (0xA7F5, 0xA7F5, 1, 0xA7F6), (0xFF21, 0xFF3A, 1, 0xFF41), (0x10400, 0x10427, 1, 0x10428), (0x104B0, 0x104D3, 1, 0x104D8), (0x10570, 0x1057A, 1, 0x10597),
   (0x1057C, 0x1058A, 1, 0x105A3), (0x1058C, 0x10592, 1, 0x105B3), (0x10594, 0x10595, 1, 0x105BB), (0x10C80, 0x10CB2, 1, 0x10CC0), (0x118A0, 0x118BF, 1, 0x118C0),
   (0x16E40, 0x16E5F, 1, 0x16E60), (0x1E900, 0x1E921, 1, 0x1E922)]

/-- The runes of category `Lu` (uppercase letter): an entry `(lo, hi, stride)`
stands for `lo, lo + stride, ..., hi`. -/
def upperTable : List (Nat × Nat × Nat) :=
  [
   (0x41, 0x5A, 1), (0xC0, 0xD6, 1), (0xD8, 0xDE, 1), (0x100, 0x136, 2), (0x139, 0x147, 2), (0x14A, 0x178, 2),
   (0x179, 0x17D, 2), (0x181, 0x182, 1), (0x184, 0x186, 2), (0x187, 0x189, 2), (0x18A, 0x18B, 1), (0x18E, 0x191, 1),
   (0x193, 0x194, 1), (0x196, 0x198, 1), (0x19C, 0x19D, 1), (0x19F, 0x1A0, 1), (0x1A2, 0x1A6, 2), (0x1A7, 0x1A9, 2),
   (0x1AC, 0x1AE, 2), (0x1AF, 0x1B1, 2), (0x1B2, 0x1B3, 1), (0x1B5, 0x1B7, 2), (0x1B8, 0x1B8, 1), (0x1BC, 0x1BC, 1),
   (0x1C4, 0x1C4, 1), (0x1C7, 0x1C7, 1), (0x1CA, 0x1CA, 1), (0x1CD, 0x1DB, 2), (0x1DE, 0x1EE, 2), (0x1F1, 0x1F1, 1),
   (0x1F4, 0x1F6, 2), (0x1F7, 0x1F8, 1), (0x1FA, 0x232, 2), (0x23A, 0x23B, 1), (0x23D, 0x23E, 1), (0x241, 0x243, 2),
   (0x244, 0x246, 1), (0x248, 0x24E, 2), (0x370, 0x372, 2), (0x376, 0x376, 1), (0x37F, 0x37F, 1), (0x386, 0x388, 2),
   (0x389, 0x38A, 1), (0x38C, 0x38E, 2), (0x38F, 0x391, 2), (0x392, 0x3A1, 1), (0x3A3, 0x3AB, 1), (0x3CF, 0x3CF, 1),
   (0x3D2, 0x3D4, 1), (0x3D8, 0x3EE, 2), (0x3F4, 0x3F4, 1), (0x3F7, 0x3F9, 2), (0x3FA, 0x3FA, 1), (0x3FD, 0x42F, 1),
   (0x460, 0x480, 2), (0x48A, 0x4C0, 2), (0x4C1, 0x4CD, 2), (0x4D0, 0x52E, 2), (0x531, 0x556, 1), (0x10A0, 0x10C5, 1),
   (0x10C7, 0x10C7, 1), (0x10CD, 0x10CD, 1), (0x13A0, 0x13F5, 1), (0x1C90, 0x1CBA, 1), (0x1CBD, 0x1CBF, 1), (0x1E00, 0x1E94, 2),
   (0x1E9E, 0x1EFE, 2), (0x1F08, 0x1F0F, 1), (0x1F18, 0x1F1D, 1), (0x1F28, 0x1F2F, 1), (0x1F38, 0x1F3F, 1), (0x1F48, 0x1F4D, 1),
   (0x1F59, 0x1F5F, 2), (0x1F68, 0x1F6F, 1), (0x1FB8, 0x1FBB, 1), (0x1FC8, 0x1FCB, 1), (0x1FD8, 0x1FDB, 1), (0x1FE8, 0x1FEC, 1),
   (0x1FF8, 0x1FFB, 1), (0x2102, 0x2102, 1), (0x2107, 0x2107, 1), (0x210B, 0x210D, 1), (0x2110, 0x2112, 1), (0x2115, 0x2115, 1),
   (0x2119, 0x211D, 1), (0x2124, 0x212A, 2), (0x212B, 0x212D, 1), (0x2130, 0x2133, 1), (0x213E, 0x213F, 1), (0x2145, 0x2145, 1),
   (0x2183, 0x2183, 1), (0x2C00, 0x2C2F, 1), (0x2C60, 0x2C62, 2), (0x2C63, 0x2C64, 1), (0x2C67, 0x2C6D, 2), (0x2C6E, 0x2C70, 1),
   (0x2C72, 0x2C72, 1), (0x2C75, 0x2C75, 1), (0x2C7E, 0x2C80, 1), (0x2C82, 0x2CE2, 2), (0x2CEB, 0x2CED, 2), (0x2CF2, 0x2CF2, 1),
   (0xA640, 0xA66C, 2), (0xA680, 0xA69A, 2), (0xA722, 0xA72E, 2), (0xA732, 0xA76E, 2), (0xA779, 0xA77D, 2), (0xA77E, 0xA786, 2),
   (0xA78B, 0xA78D, 2), (0xA790, 0xA792, 2), (0xA796, 0xA7AA, 2), (0xA7AB, 0xA7AE, 1), (0xA7B0, 0xA7B4, 1), (0xA7B6, 0xA7C4, 2),
   (0xA7C5, 0xA7C7, 1), (0xA7C9, 0xA7C9, 1), (0xA7D0, 0xA7D0, 1), (0xA7D6, 0xA7D8, 2), (0xA7F5, 0xA7F5, 1), (0xFF21, 0xFF3A, 1),
   (0x10400, 0x10427, 1), (0x104B0, 0x104D3, 1), (0x10570, 0x1057A, 1), (0x1057C, 0x1058A, 1), (0x1058C, 0x10592, 1), (0x10594, 0x10595, 1),
   (0x10C80, 0x10CB2, 1), (0x118A0, 0x118BF, 1), (0x16E40, 0x16E5F, 1), (0x1D400, 0x1D419, 1), (0x1D434, 0x1D44D, 1), (0x1D468, 0x1D481, 1),
   (0x1D49C, 0x1D49E, 2), (0x1D49F, 0x1D49F, 1), (0x1D4A2, 0x1D4A2, 1), (0x1D4A5, 0x1D4A6, 1), (0x1D4A9, 0x1D4AC, 1), (0x1D4AE, 0x1D4B5, 1),
   (0x1D4D0, 0x1D4E9, 1), (0x1D504, 0x1D505, 1), (0x1D507, 0x1D50A, 1), (0x1D50D, 0x1D514, 1), (0x1D516, 0x1D51C, 1), (0x1D538, 0x1D539, 1),
   (0x1D53B, 0x1D53E, 1), (0x1D540, 0x1D544, 1), (0x1D546, 0x1D546, 1), (0x1D54A, 0x1D550, 1), (0x1D56C, 0x1D585, 1), (0x1D5A0, 0x1D5B9, 1),
   (0x1D5D4, 0x1D5ED, 1), (0x1D608, 0x1D621, 1), (0x1D63C, 0x1D655, 1), (0x1D670, 0x1D689, 1), (0x1D6A8, 0x1D6C0, 1), (0x1D6E2, 0x1D6FA, 1),
   (0x1D71C, 0x1D734, 1), (0x1D756, 0x1D76E, 1), (0x1D790, 0x1D7A8, 1), (0x1D7CA, 0x1D7CA, 1), (0x1E900, 0x1E921, 1)]

/-- The image of a code point under a table of lowercase mappings; a code
point outside every entry is its own image. -/
def lookupLower (n : Nat) : List (Nat × Nat × Nat × Nat) → Nat
  | [] => n
  | (lo, hi, stride, tgt) :: rest =>
    if lo ≤ n ∧ n ≤ hi ∧ (n - lo) % stride = 0 then tgt + (n - lo) else lookupLower n rest

/-- Go `unicode.ToLower` on a valid rune, for the lowercase mappings of
`lowerTable`. -/
def unicodeToLower (c : Char) : Char :=
  Char.ofNat (lookupLower c.toNat lowerTable)

/-- Go `unicode.IsUpper`: whether the rune is an uppercase letter, for the
runes of `upperTable`. -/
def unicodeIsUpper (c : Char) : Bool :=
  upperTable.any (fun e => decide (e.1 ≤ c.toNat ∧ c.toNat ≤ e.2.1 ∧ (c.toNat - e.1) % e.2.2 = 0))

/-- Whether the images of the entry `(lo, hi, stride, tgt)` avoid every entry
of a table: the images lie below or above the entry, or both have stride 2
and the images fall between the runes of the entry. -/
def imageClear (lo hi stride tgt : Nat) : List (Nat × Nat × Nat × Nat) → Bool
  | [] => true
  | (lo2, hi2, stride2, _) :: rest =>
    (Nat.blt (tgt + (hi - lo)) lo2 || Nat.blt hi2 tgt
      || ((Nat.beq stride 2 || Nat.beq lo hi) && Nat.beq stride2 2
          && Nat.beq ((tgt + lo2) % 2) 1))
    && imageClear lo hi stride tgt rest

/-- Whether an entry of a table is in order, has valid runes for images and
images that avoid every entry of the table. -/
def entryOK (tbl : List (Nat × Nat × Nat × Nat)) : Nat × Nat × Nat × Nat → Bool
  | (lo, hi, stride, tgt) =>
    Nat.ble lo hi
      && (Nat.blt (tgt + (hi - lo)) 0xD800
          || (Nat.blt 0xDFFF tgt && Nat.blt (tgt + (hi - lo)) 0x110000))
      && imageClear lo hi stride tgt tbl

/-- Whether no image of a table of lowercase mappings is mapped again. -/
def tableOK (tbl : List (Nat × Nat × Nat × Nat)) : Bool :=
  tbl.all (entryOK tbl)

/-! ## Messengers and the registry (`App.messengers`) -/

/-- A `manager.Messenger` as `main` sees it: the identity of the instance,
what `Name()` returns and whether `Close()` returns an error. -/
structure Messenger where
  id : Nat
  name : String
  closeFails : Bool
deriving DecidableEq, Repr

/-- The constant `emailMsgr`. -/
def emailMsgr : String := "email"

/-- Go `map[string]manager.Messenger`: the entries of the map; the keys of a
map are pairwise distinct (`Registry.WF`). -/
abbrev Registry := List (String × Messenger)

/-- The keys of a Go map are pairwise distinct. -/
def Registry.WF (r : Registry) : Prop := (r.map Prod.fst).Nodup

instance (r : Registry) : Decidable r.WF :=
  inferInstanceAs (Decidable (r.map Prod.fst).Nodup)

/-- Go `r[k] = m`: the value under an existing key is overwritten, a new key
is added. -/
def regSet : Registry → String → Messenger → Registry
  | [], k, m => [(k, m)]
  | (k', m') :: rest, k, m =>
    if k' = k then (k, m) :: rest else (k', m') :: regSet rest k m

/-- Go `r[k]`, with `none` for an absent key. -/
def regGet : Registry → String → Option Messenger
  | [], _ => none
  | (k', m') :: rest, k => if k' = k then some m' else regGet rest k

/-- Lines 257-261 of `main`: the SMTP messenger goes under `emailMsgr`, then
every postback messenger under its own `Name()`. -/
def populate (smtp : Messenger) (postbacks : List Messenger) : Registry :=
  postbacks.foldl (fun r m => regSet r m.name m) (regSet [] emailMsgr smtp)

/-- The assignments to `app.messengers` in the order `main` makes them. -/
def registrations (smtp : Messenger) (postbacks : List Messenger) : List (String × Messenger) :=
  (emailMsgr, smtp) :: postbacks.map (fun m => (m.name, m))

/-- The last messenger assigned under `k` in a sequence of assignments. -/
def lastRegistered (k : String) : List (String × Messenger) → Option Messenger
  | [] => none
  | (k', m) :: rest =>
    match lastRegistered k rest with
    | some m' => some m'
    | none => if k' = k then some m else none

/-- A sample SMTP messenger instance. -/
def smtpSample : Messenger := ⟨0, "email", false⟩

/-- A postback messenger named `email` whose `Close()` fails. -/
def postbackEmail : Messenger := ⟨1, "email", true⟩

/-- A postback messenger named `sms`. -/
def postbackSms : Messenger := ⟨2, "sms", false⟩

/-! ## Runs: events and outcomes -/

/-- The calls `init`, `main` and the shutdown closure make, in the order of
the source. -/
inductive Event
  | initFlags | printBuild | logBuild | newConfigFile | initConfigFiles | loadEnv
  | initDB | initFS | install | checkSchema | upgrade | checkUpgrade
  | readQueries | initSettings | prepareQueries
  | initConstants | initMediaStore | initCaptcha | initI18n
  | unmarshalBounceActions | coreNew
  | initCampaignManager | initImporter | initNotifTemplates | initTxTemplates
  | initBounceManager | goBounceRun
  | initSMTPMessenger | initPostbackMessengers
  | setMessenger (key : String) (m : Messenger)
  | addMessenger (m : Messenger)
  | initAbout | goManagerRun | cronNew
  | cronAddFunc (spec : String) | printError (what : String)
  | afterFuncCronStop | cronStart
  | initHTTPServer | goCheckUpdates | signalNotify | awaitReload
  | cronStop | srvShutdown | managerClose | dbClose
  | messengerClose (key : String) (m : Messenger)
  | closerWaitSend | ctxCancel
deriving DecidableEq, Repr

/-- The two loggers of the file: the package logger `lo` and the standard
library's `log`. -/
inductive Logger
  | lo | std
deriving DecidableEq, Repr

/-- How a run of `init` or `main` ends. `fatal` is `Fatal`/`Fatalf`: the line
is logged on the logger and the process exits with status 1. -/
inductive Outcome
  | exit (code : Nat)
  | fatal (logger : Logger) (line : String)
  | returned
  | done
deriving DecidableEq, Repr

/-- The exit status of the process for an outcome that ends it. -/
def Outcome.status : Outcome → Option Nat
  | .exit code => some code
  | .fatal _ _ => some 1
  | .returned => some 0
  | .done => none

/-- What `checkSchema(db)` returns: `(true, nil)`, `(false, nil)` or an error. -/
inductive SchemaCheck
  | ok | notOk | err (e : String)
deriving DecidableEq, Repr

/-- What the run reads from flags, configuration, database and collaborators. -/
structure Env where
  version : Bool
  newConfig : Bool
  newConfigErr : Bool
  envLoadErr : Option String
  install : Bool
  schema : SchemaCheck
  upgrade : Bool
  hasGetSettings : Bool
  bounceActionsErr : Option String
  bounceEnabled : Bool
  smtp : Messenger
  postbacks : List Messenger
  cronAddErr : String → Bool
  checkUpdates : Bool

/-- A run: the calls made, the content of `app.messengers`, the outcome. -/
structure Run where
  trace : List Event
  messengers : Registry
  outcome : Outcome

/-- Events of a trace strictly before the first occurrence of `e`. -/
def eventsBefore (e : Event) : List Event → List Event
  | [] => []
  | x :: xs => if x = e then [] else x :: eventsBefore e xs

/-- Events of a trace strictly after the first occurrence of `e`. -/
def eventsAfter (e : Event) : List Event → List Event
  | [] => []
  | x :: xs => if x = e then xs else eventsAfter e xs

/-! ## `init` (lines 82-139) -/

/-- The function `init`.  `initDB` opens the storage pool; the collaborators
that are not in this file (`initFlags`, `initDB`, `readQueries`, ...) are
calls recorded in the trace. -/
def init (env : Env) : Run :=
  let t := [Event.initFlags]
  if env.version then ⟨t ++ [.printBuild], [], .exit 0⟩ else
  let t := t ++ [.logBuild]
  if env.newConfig then
    ⟨t ++ [.newConfigFile], [], if env.newConfigErr then .exit 1 else .exit 0⟩ else
  let t := t ++ [.initConfigFiles, .loadEnv]
  match env.envLoadErr with
  | some e => ⟨t, [], .fatal .lo ("error loading config from env: " ++ e)⟩
  | none =>
  let t := t ++ [.initDB, .initFS]
  if env.install then ⟨t ++ [.install], [], .exit 0⟩ else
  let t := t ++ [.checkSchema]
  match env.schema with
  | .err e => ⟨t, [], .fatal .std ("error checking schema in DB: " ++ e)⟩
  | .notOk => ⟨t, [], .fatal .lo "the database does not appear to be set up. Run --install."⟩
  | .ok =>
  if env.upgrade then ⟨t ++ [.upgrade], [], .exit 0⟩ else
  let t := t ++ [.checkUpgrade, .readQueries]
  let t := t ++ (if env.hasGetSettings then [.initSettings] else [])
  ⟨t ++ [.prepareQueries], [], .done⟩

/-! ## `main` (lines 205-351) -/

/-- The weekday jobs of lines 289-336, in source order. -/
def weekdaySpecs : List String :=
  ["0 0 * * MON", "0 0 * * TUE", "0 0 * * WED", "0 0 * * THU",
   "0 0 * * FRI", "0 0 * * SAT", "0 0 * * SUN"]

/-- One weekday `cron.AddFunc`: an error is printed and `main` goes on. -/
def addWeekdayJob (env : Env) (spec : String) : List Event :=
  if env.cronAddErr spec then [.cronAddFunc spec, .printError spec] else [.cronAddFunc spec]

/-- Lines 206-238: the `App` literal, `initI18n` and the unmarshalling of
`bounce.actions`. -/
def mainHead : List Event :=
  [.initConstants, .initMediaStore, .initCaptcha, .initI18n, .unmarshalBounceActions]

/-- Lines 242-255: the core, the campaign manager, the importer, the
templates and, when `bounce.enabled` is set, the bounce processor and its
goroutine. -/
def mainServices (env : Env) : List Event :=
  [.coreNew, .initCampaignManager, .initImporter, .initNotifTemplates, .initTxTemplates]
    ++ (if env.bounceEnabled then [.initBounceManager, .goBounceRun] else [])

/-- Lines 257-265: the assignments to `app.messengers`, then `AddMessenger`
on every entry, in the order `addOrder` in which the `range` yields them. -/
def mainMessengers (env : Env) (addOrder : Registry) : List Event :=
  [.initSMTPMessenger, .setMessenger emailMsgr env.smtp, .initPostbackMessengers]
    ++ env.postbacks.map (fun m => Event.setMessenger m.name m)
    ++ addOrder.map (fun p => Event.addMessenger p.2)

/-- Lines 283-339: the timer that stops the scheduler, the weekday jobs and
`cron.Start()`. -/
def mainCronJobs (env : Env) : List Event :=
  [.afterFuncCronStop] ++ (weekdaySpecs.map (addWeekdayJob env)).flatten ++ [.cronStart]

/-- Lines 206-274: everything up to and including the registration of the
first cron job, when `bounce.actions` unmarshals. -/
def mainSetup (env : Env) (addOrder : Registry) : List Event :=
  mainHead ++ mainServices env ++ mainMessengers env addOrder
    ++ [.initAbout, .goManagerRun, .cronNew, .cronAddFunc "@every 1m"]

/-- The function `main` up to the call of `awaitReload`.  A failing
unmarshal of `bounce.actions` is fatal, a failing registration of the first
cron job makes `main` return; the listener is started by `initHTTPServer`. -/
def main (env : Env) (addOrder : Registry) : Run :=
  match env.bounceActionsErr with
  | some e => ⟨mainHead, [], .fatal .lo ("error unmarshalling bounce config: " ++ e)⟩
  | none =>
    if env.cronAddErr "@every 1m" then
      ⟨mainSetup env addOrder ++ [.printError "@every 1m"],
        populate env.smtp env.postbacks, .returned⟩
    else
      ⟨mainSetup env addOrder ++ mainCronJobs env ++ [.initHTTPServer]
        ++ (if env.checkUpdates then [.goCheckUpdates] else [])
        ++ [.signalNotify, .awaitReload], populate env.smtp env.postbacks, .done⟩

/-- The program up to `awaitReload`: `init` runs first, `main` runs when
`init` has not ended the process. -/
def boot (env : Env) (addOrder : Registry) : Run :=
  let r := init env
  match r.outcome with
  | .done =>
    let r' := main env addOrder
    ⟨r.trace ++ r'.trace, r'.messengers, r'.outcome⟩
  | _ => r

/-! ## The shutdown closure (lines 352-363) -/

/-- The loop `for _, m := range app.messengers { m.Close() }` over the
entries in the order the `range` yields them; what `Close()` returns is
dropped. -/
def closeMessengers : Registry → List Event
  | [] => []
  | (k, m) :: rest => .messengerClose k m :: closeMessengers rest

/-- The closure handed to `awaitReload`; `closeOrder` is the order in which
the `range` of line 359 yields the entries of `app.messengers`.  The
deferred `cancel()` runs when the closure returns. -/
def shutdownFn (closeOrder : Registry) : List Event :=
  [.cronStop, .srvShutdown, .managerClose, .dbClose]
    ++ closeMessengers closeOrder ++ [.closerWaitSend, .ctxCancel]

/-! ## `awaitReload` -/

/-- Modelled from the spec: the lifecycle state of section 3, which belongs
to `awaitReload`, a function defined in another file of the package. -/
inductive Lifecycle
  | Starting | Running | ShuttingDown | Terminated
deriving DecidableEq, Repr

/-- Modelled from the spec: what the coordinator of section 4.2 reacts to, a
notification on the reload trigger or the return of the shutdown function. -/
inductive Signal
  | notification | shutdownReturned
deriving DecidableEq, Repr

/-- Modelled from the spec: the coordinator of section 4.2, with its
lifecycle state, how often it has invoked the shutdown function, the calls
made so far and whether completion has been published. -/
structure Coordinator where
  state : Lifecycle
  invocations : Nat
  trace : List Event
  completed : Bool
deriving DecidableEq, Repr

/-- Modelled from the spec: `awaitReload` is called by `main` and defined in
another file of the package.  Section 4.2 of the spec: on the first
notification the state goes to `ShuttingDown` and the shutdown function is
invoked; a notification arriving while `ShuttingDown` is discarded; after
the shutdown function returns the state goes to `Terminated` and completion
is published. -/
def awaitReloadStep (shutdown : List Event) (c : Coordinator) : Signal → Coordinator
  | .notification =>
    match c.state with
    | .Running =>
      { c with state := .ShuttingDown, invocations := c.invocations + 1,
               trace := c.trace ++ shutdown }
    | _ => c
  | .shutdownReturned =>
    match c.state with
    | .ShuttingDown => { c with state := .Terminated, completed := true }
    | _ => c

/-- Modelled from the spec: the coordinator when `awaitReload` is entered,
after bootstrap (`Running`, nothing invoked yet). -/
def awaitReloadStart : Coordinator :=
  { state := .Running, invocations := 0, trace := [], completed := false }

/-- Modelled from the spec: the coordinator after a sequence of signals. -/
def awaitReloadRun (shutdown : List Event) (signals : List Signal) : Coordinator :=
  signals.foldl (awaitReloadStep shutdown) awaitReloadStart

/-- Whether an event is a close attempt recorded for the registry name `k`. -/
def closesName (k : String) : Event → Bool
  | .messengerClose k' _ => k' == k
  | _ => false

/-- Whether an event closes or stops something: the calls of the shutdown
closure other than its two channel and context operations. -/
def Event.isClose : Event → Bool
  | .cronStop | .srvShutdown | .managerClose | .dbClose | .messengerClose _ _ => true
  | _ => false

/-- Whether an event starts a background worker or the network listener. -/
def Event.isStart : Event → Bool
  | .goBounceRun | .goManagerRun | .cronStart | .goCheckUpdates | .initHTTPServer => true
  | _ => false

/-- Whether an event is a call made by `init`. -/
def Event.inInit : Event → Bool
  | .initFlags | .printBuild | .logBuild | .newConfigFile | .initConfigFiles | .loadEnv
  | .initDB | .initFS | .install | .checkSchema | .upgrade | .checkUpgrade
  | .readQueries | .initSettings | .prepareQueries => true
  | _ => false

/-- What holds of every call `main` makes before it starts the listener: it
is not a call of `init`, closes nothing and is not `initHTTPServer`. -/
def BeforeListener (ev : Event) : Prop :=
  ev.inInit = false ∧ ev.isClose = false ∧ ev ≠ .initHTTPServer

instance : DecidablePred BeforeListener :=
  fun ev => inferInstanceAs (Decidable (ev.inInit = false ∧ ev.isClose = false ∧ ev ≠ .initHTTPServer))

/-- A run that fails at the registration of the first cron job, with the
bounce processor enabled and a postback messenger named `email`. -/
def envSample : Env :=
  { version := false, newConfig := false, newConfigErr := false, envLoadErr := none,
    install := false, schema := .ok, upgrade := false, hasGetSettings := true,
    bounceActionsErr := none, bounceEnabled := true, smtp := smtpSample,
    postbacks := [postbackEmail], cronAddErr := fun spec => spec == "@every 1m",
    checkUpdates := false }

/-- A complete bootstrap with the SMTP messenger and two postback messengers. -/
def envComplete : Env :=
  { envSample with postbacks := [postbackSms, postbackEmail], cronAddErr := fun _ => false }

/-- A bootstrap against a database that is not set up. -/
def envNoSchema : Env :=
  { envSample with schema := .notOk }

/-! ## Lemmas on the Unicode tables -/

theorem lowerTable_ok : tableOK lowerTable = true := by decide!

theorem lookupLower_of_no_hit (n : Nat) (tbl : List (Nat × Nat × Nat × Nat))
    (h : ∀ e ∈ tbl, ¬ (e.1 ≤ n ∧ n ≤ e.2.1 ∧ (n - e.1) % e.2.2.1 = 0)) :
    lookupLower n tbl = n := by
  induction tbl with
  | nil => rfl
  | cons e tbl ih =>
    obtain ⟨lo, hi, stride, tgt⟩ := e
    have h1 := h (lo, hi, stride, tgt) (List.mem_cons_self _ _)
    simp only [lookupLower, if_neg h1]
    exact ih (fun e he => h e (List.mem_cons_of_mem _ he))

theorem lookupLower_cases (n : Nat) (tbl : List (Nat × Nat × Nat × Nat)) :
    (lookupLower n tbl = n
      ∧ ∀ e ∈ tbl, ¬ (e.1 ≤ n ∧ n ≤ e.2.1 ∧ (n - e.1) % e.2.2.1 = 0)) ∨
    ∃ e ∈ tbl, (e.1 ≤ n ∧ n ≤ e.2.1 ∧ (n - e.1) % e.2.2.1 = 0)
      ∧ lookupLower n tbl = e.2.2.2 + (n - e.1) := by
  induction tbl with
  | nil => exact Or.inl ⟨rfl, fun e he => by simp at he⟩
  | cons e tbl ih =>
    obtain ⟨lo, hi, stride, tgt⟩ := e
    by_cases h1 : lo ≤ n ∧ n ≤ hi ∧ (n - lo) % stride = 0
    · exact Or.inr ⟨(lo, hi, stride, tgt), List.mem_cons_self _ _, h1, by simp [lookupLower, h1]⟩
    · simp only [lookupLower, if_neg h1]
      rcases ih with ⟨h, hno⟩ | ⟨e, he, hh, hl⟩
      · refine Or.inl ⟨h, ?_⟩
        intro e he
        rcases List.mem_cons.1 he with rfl | he
        · exact h1
        · exact hno e he
      · exact Or.inr ⟨e, List.mem_cons_of_mem _ he, hh, hl⟩

theorem imageClear_sound (lo hi stride tgt : Nat) (tbl : List (Nat × Nat × Nat × Nat))
    (h : imageClear lo hi stride tgt tbl = true) (n : Nat)
    (hn : lo ≤ n ∧ n ≤ hi ∧ (n - lo) % stride = 0) :
    ∀ e ∈ tbl, ¬ (e.1 ≤ tgt + (n - lo) ∧ tgt + (n - lo) ≤ e.2.1
      ∧ (tgt + (n - lo) - e.1) % e.2.2.1 = 0) := by
  induction tbl with
  | nil => intro e he; simp at he
  | cons e' tbl ih =>
    obtain ⟨lo2, hi2, stride2, tgt2⟩ := e'
    simp only [imageClear, Bool.and_eq_true, Bool.or_eq_true, Nat.blt_eq] at h
    intro e he
    rcases List.mem_cons.1 he with rfl | he
    · simp only
      rcases h.1 with (h1 | h1) | ⟨⟨h1, h2⟩, h3⟩
      · omega
      · omega
      · have h2' := Nat.eq_of_beq_eq_true h2
        have h3' := Nat.eq_of_beq_eq_true h3
        subst h2'
        have heven : (n - lo) % 2 = 0 := by
          rcases h1 with h1 | h1
          · have := Nat.eq_of_beq_eq_true h1
            subst this; exact hn.2.2
          · have := Nat.eq_of_beq_eq_true h1
            have : n = lo := by omega
            subst this; simp
        omega
    · exact ih h.2 e he

theorem tableOK_sound (tbl : List (Nat × Nat × Nat × Nat)) (h : tableOK tbl = true)
    (lo hi stride tgt : Nat) (he : (lo, hi, stride, tgt) ∈ tbl) (n : Nat)
    (hn : lo ≤ n ∧ n ≤ hi ∧ (n - lo) % stride = 0) :
    (Nat.isValidChar (tgt + (n - lo))) ∧
    ∀ e' ∈ tbl, ¬ (e'.1 ≤ tgt + (n - lo) ∧ tgt + (n - lo) ≤ e'.2.1
      ∧ (tgt + (n - lo) - e'.1) % e'.2.2.1 = 0) := by
  have h1 := List.all_eq_true.1 h _ he
  simp only [entryOK, Bool.and_eq_true, Bool.or_eq_true, Nat.blt_eq, Nat.ble_eq] at h1
  refine ⟨?_, imageClear_sound lo hi stride tgt tbl h1.2 n hn⟩
  unfold Nat.isValidChar
  rcases h1.1.2 with h2 | h2
  · left; omega
  · right; omega

theorem lookupLower_idem (tbl : List (Nat × Nat × Nat × Nat)) (h : tableOK tbl = true)
    (n : Nat) : lookupLower (lookupLower n tbl) tbl = lookupLower n tbl := by
  rcases lookupLower_cases n tbl with ⟨h1, _⟩ | ⟨⟨lo, hi, stride, tgt⟩, he, hn, hl⟩
  · rw [h1, h1]
  · rw [hl]
    exact lookupLower_of_no_hit _ tbl (tableOK_sound tbl h lo hi stride tgt he n hn).2

theorem lookupLower_valid (tbl : List (Nat × Nat × Nat × Nat)) (h : tableOK tbl = true)
    (n : Nat) (hv : n.isValidChar) : (lookupLower n tbl).isValidChar := by
  rcases lookupLower_cases n tbl with ⟨h1, _⟩ | ⟨⟨lo, hi, stride, tgt⟩, he, hn, hl⟩
  · rw [h1]; exact hv
  · rw [hl]
    exact (tableOK_sound tbl h lo hi stride tgt he n hn).1

theorem lookupLower_not_capital (tbl : List (Nat × Nat × Nat × Nat)) (h : tableOK tbl = true)
    (hA : (0x41, 0x5A, 1, 0x61) ∈ tbl) (n : Nat) :
    ¬ (0x41 ≤ lookupLower n tbl ∧ lookupLower n tbl ≤ 0x5A) := by
  rcases lookupLower_cases n tbl with ⟨h1, hno⟩ | ⟨⟨lo, hi, stride, tgt⟩, he, hn, hl⟩
  · rw [h1]
    have := hno _ hA
    simp only [Nat.mod_one, and_true] at this
    exact this
  · rw [hl]
    have := (tableOK_sound tbl h lo hi stride tgt he n hn).2 _ hA
    simp only [Nat.mod_one, and_true] at this
    exact this

theorem toNat_ofNat_valid (m : Nat) (h : m.isValidChar) : (Char.ofNat m).toNat = m := by
  simp only [Char.ofNat, h, dite_true, Char.ofNatAux, Char.toNat]
  have : m < 4294967296 := by
    rcases h with h | h <;> omega
  simp [UInt32.toNat, Nat.mod_eq_of_lt this]

theorem isUpper_iff (c : Char) : c.isUpper = true ↔ (65 ≤ c.toNat ∧ c.toNat ≤ 90) := by
  simp only [Char.isUpper, Char.toNat, Bool.and_eq_true, decide_eq_true_eq, UInt32.le_def,
    ge_iff_le, BitVec.le_def, UInt32.toNat]
  rfl

theorem char_toNat_valid (c : Char) : c.toNat.isValidChar := c.valid

theorem unicodeToLower_toNat (c : Char) :
    (unicodeToLower c).toNat = lookupLower c.toNat lowerTable :=
  toNat_ofNat_valid _ (lookupLower_valid lowerTable lowerTable_ok _ (char_toNat_valid c))

theorem unicodeToLower_idem (c : Char) :
    unicodeToLower (unicodeToLower c) = unicodeToLower c := by
  unfold unicodeToLower
  rw [toNat_ofNat_valid _ (lookupLower_valid lowerTable lowerTable_ok _ (char_toNat_valid c)),
    lookupLower_idem lowerTable lowerTable_ok]

theorem unicodeToLower_not_capital (c : Char) : (unicodeToLower c).isUpper = false := by
  rw [Bool.eq_false_iff, Ne, isUpper_iff, unicodeToLower_toNat]
  exact lookupLower_not_capital lowerTable lowerTable_ok (by decide) c.toNat

theorem unicodeToLower_dot : unicodeToLower '.' = '.' := by decide

/-! ## Lemmas on UTF-8 -/

theorem byte_val (n : Nat) : (byte n).val = n % 256 := rfl

theorem decode_encode (c : Char) (rest : List Byte) :
    decodeRune (encodeRune c ++ rest) = (c, (encodeRune c).length) := by
  have hv : c.toNat < 0xD800 ∨ (0xDFFF < c.toNat ∧ c.toNat < 0x110000) := c.valid
  have hc : Char.ofNat c.toNat = c := Char.ofNat_toNat c
  unfold encodeRune
  generalize c.toNat = n at hv hc ⊢
  by_cases h1 : n ≤ 0x7F
  · simp only [h1, if_true, List.cons_append, List.nil_append, decodeRune, byte_val,
      List.length_singleton]
    rw [if_pos (by omega)]
    have : n % 256 = n := by omega
    rw [this, hc]
  · by_cases h2 : n ≤ 0x7FF
    · simp only [h1, h2, if_true, if_false, List.cons_append, List.nil_append, decodeRune,
        byte_val, List.length_cons, List.length_nil]
      rw [if_neg (by omega), if_neg (by omega), if_pos (by omega), if_pos (by omega)]
      have : (192 + n / 64) % 256 % 32 * 64 + (128 + n % 64) % 256 % 64 = n := by omega
      rw [this, hc]
    · by_cases h3 : n ≤ 0xFFFF
      · simp only [h1, h2, h3, if_true, if_false, List.cons_append, List.nil_append, decodeRune,
          byte_val, List.length_cons, List.length_nil]
        rw [if_neg (by omega), if_neg (by omega), if_neg (by omega), if_pos (by omega),
          if_pos (by
            refine ⟨?_, ?_, ?_, ?_⟩
            · split <;> omega
            · split <;> omega
            · omega
            · omega)]
        have : (224 + n / 4096) % 256 % 16 * 4096 + (128 + n / 64 % 64) % 256 % 64 * 64
            + (128 + n % 64) % 256 % 64 = n := by omega
        rw [this, hc]
      · simp only [h1, h2, h3, if_false, List.cons_append, List.nil_append, decodeRune,
          byte_val, List.length_cons, List.length_nil]
        rw [if_neg (by omega), if_neg (by omega), if_neg (by omega), if_neg (by omega),
          if_pos (by omega),
          if_pos (by
            refine ⟨?_, ?_, ?_, ?_, ?_, ?_⟩
            · split <;> omega
            · split <;> omega
            · omega
            · omega
            · omega
            · omega)]
        have : (240 + n / 262144) % 256 % 8 * 262144 + (128 + n / 4096 % 64) % 256 % 64 * 4096
            + (128 + n / 64 % 64) % 256 % 64 * 64 + (128 + n % 64) % 256 % 64 = n := by omega
        rw [this, hc]

theorem byte_eq_of_val (n : Nat) (b : Byte) (h : n % 256 = b.val) : byte n = b :=
  Fin.ext h

/-- A valid encoding is the encoding of the rune it decodes to, so copying
the bytes of a rune and encoding the rune again are the same. -/
theorem encode_decode (b0 : Byte) (rest : List Byte)
    (h : 2 ≤ (decodeRune (b0 :: rest)).2 ∨ b0.val < 0x80) :
    encodeRune (decodeRune (b0 :: rest)).1 = (b0 :: rest).take (decodeRune (b0 :: rest)).2 := by
  have hb0 := b0.isLt
  unfold decodeRune at h ⊢
  by_cases h1 : b0.val < 0x80
  · simp only [h1, if_true, List.take_succ_cons, List.take_zero]
    have hv : (Char.ofNat b0.val).toNat = b0.val := toNat_ofNat_valid _ (Or.inl (by omega))
    unfold encodeRune
    rw [hv, if_pos (by omega)]
    exact congrArg (· :: []) (byte_eq_of_val _ _ (by omega))
  · simp only [h1, if_false, or_false] at h ⊢
    by_cases h2 : b0.val < 0xC2
    · simp [h2] at h
    · simp only [h2, if_false] at h ⊢
      by_cases h3 : b0.val < 0xE0
      · simp only [h3, if_true] at h ⊢
        cases rest with
        | nil => simp at h
        | cons b1 r1 =>
          have hb1 := b1.isLt
          simp only at h ⊢
          by_cases hc : 0x80 ≤ b1.val ∧ b1.val ≤ 0xBF
          · simp only [hc, and_self, if_true, List.take_succ_cons, List.take_zero]
            have hv : (Char.ofNat (b0.val % 32 * 64 + b1.val % 64)).toNat
                = b0.val % 32 * 64 + b1.val % 64 := toNat_ofNat_valid _ (Or.inl (by omega))
            unfold encodeRune
            rw [hv, if_neg (by omega), if_pos (by omega)]
            rw [byte_eq_of_val _ b0 (by omega), byte_eq_of_val _ b1 (by omega)]
          · simp [hc] at h
      · simp only [h3, if_false] at h ⊢
        by_cases h4 : b0.val < 0xF0
        · simp only [h4, if_true] at h ⊢
          rcases rest with _ | ⟨b1, _ | ⟨b2, r2⟩⟩
          · simp at h
          · simp at h
          · have hb1 := b1.isLt
            have hb2 := b2.isLt
            simp only at h ⊢
            by_cases hc : (if b0.val = 0xE0 then 0xA0 else 0x80) ≤ b1.val
                ∧ b1.val ≤ (if b0.val = 0xED then 0x9F else 0xBF)
                ∧ 0x80 ≤ b2.val ∧ b2.val ≤ 0xBF
            · rw [if_pos hc]
              simp only [List.take_succ_cons, List.take_zero]
              obtain ⟨hc1, hc2, hc3, hc4⟩ := hc
              have hlo : b0.val = 0xE0 → 0xA0 ≤ b1.val := by
                intro he; rw [if_pos he] at hc1; exact hc1
              have hlo' : 0x80 ≤ b1.val := by split at hc1 <;> omega
              have hhi : b0.val = 0xED → b1.val ≤ 0x9F := by
                intro he; rw [if_pos he] at hc2; exact hc2
              have hhi' : b1.val ≤ 0xBF := by split at hc2 <;> omega
              have hv : (Char.ofNat (b0.val % 16 * 4096 + b1.val % 64 * 64 + b2.val % 64)).toNat
                  = b0.val % 16 * 4096 + b1.val % 64 * 64 + b2.val % 64 := by
                apply toNat_ofNat_valid
                unfold Nat.isValidChar
                by_cases he : b0.val = 0xED
                · have := hhi he
                  left; omega
                · by_cases hlt : b0.val < 0xED
                  · left; omega
                  · right; omega
              unfold encodeRune
              rw [hv, if_neg (by by_cases he : b0.val = 0xE0
                                 · have := hlo he; omega
                                 · omega),
                if_neg (by by_cases he : b0.val = 0xE0
                           · have := hlo he; omega
                           · omega),
                if_pos (by omega)]
              rw [byte_eq_of_val _ b0 (by omega), byte_eq_of_val _ b1 (by omega),
                byte_eq_of_val _ b2 (by omega)]
            · rw [if_neg hc] at h
              simp at h
        · simp only [h4, if_false] at h ⊢
          by_cases h5 : b0.val < 0xF5
          · simp only [h5, if_true] at h ⊢
            rcases rest with _ | ⟨b1, _ | ⟨b2, _ | ⟨b3, r3⟩⟩⟩
            · simp at h
            · simp at h
            · simp at h
            · have hb1 := b1.isLt
              have hb2 := b2.isLt
              have hb3 := b3.isLt
              simp only at h ⊢
              by_cases hc : (if b0.val = 0xF0 then 0x90 else 0x80) ≤ b1.val
                  ∧ b1.val ≤ (if b0.val = 0xF4 then 0x8F else 0xBF)
                  ∧ 0x80 ≤ b2.val ∧ b2.val ≤ 0xBF ∧ 0x80 ≤ b3.val ∧ b3.val ≤ 0xBF
              · rw [if_pos hc]
                simp only [List.take_succ_cons, List.take_zero]
                obtain ⟨hc1, hc2, hc3, hc4, hc5, hc6⟩ := hc
                have hlo : b0.val = 0xF0 → 0x90 ≤ b1.val := by
                  intro he; rw [if_pos he] at hc1; exact hc1
                have hlo' : 0x80 ≤ b1.val := by split at hc1 <;> omega
                have hhi : b0.val = 0xF4 → b1.val ≤ 0x8F := by
                  intro he; rw [if_pos he] at hc2; exact hc2
                have hhi' : b1.val ≤ 0xBF := by split at hc2 <;> omega
                have hge : 0x10000 ≤ b0.val % 8 * 262144 + b1.val % 64 * 4096
                    + b2.val % 64 * 64 + b3.val % 64 := by
                  by_cases he : b0.val = 0xF0
                  · have := hlo he; omega
                  · omega
                have hle : b0.val % 8 * 262144 + b1.val % 64 * 4096
                    + b2.val % 64 * 64 + b3.val % 64 < 0x110000 := by
                  by_cases he : b0.val = 0xF4
                  · have := hhi he; omega
                  · omega
                have hv : (Char.ofNat (b0.val % 8 * 262144 + b1.val % 64 * 4096
                    + b2.val % 64 * 64 + b3.val % 64)).toNat
                    = b0.val % 8 * 262144 + b1.val % 64 * 4096
                      + b2.val % 64 * 64 + b3.val % 64 :=
                  toNat_ofNat_valid _ (Or.inr ⟨by omega, hle⟩)
                unfold encodeRune
                rw [hv, if_neg (by omega), if_neg (by omega), if_neg (by omega)]
                rw [byte_eq_of_val _ b0 (by omega), byte_eq_of_val _ b1 (by omega),
                  byte_eq_of_val _ b2 (by omega), byte_eq_of_val _ b3 (by omega)]
              · rw [if_neg hc] at h
                simp at h
          · simp [h5] at h

theorem encodeRunes_nil : encodeRunes [] = [] := rfl

theorem encodeRunes_cons (q : Char) (qs : List Char) :
    encodeRunes (q :: qs) = encodeRune q ++ encodeRunes qs := by
  simp [encodeRunes]

theorem mem_encodeRunes (qs : List Char) (b : Byte) :
    b ∈ encodeRunes qs ↔ ∃ q ∈ qs, b ∈ encodeRune q := by
  simp [encodeRunes, List.mem_flatten]

/-- The encoding of a rune is not empty. -/
theorem encodeRune_eq_cons (c : Char) : ∃ b tl, encodeRune c = b :: tl := by
  unfold encodeRune
  split_ifs <;> exact ⟨_, _, rfl⟩

/-- An ASCII byte occurs only in the encoding of the ASCII rune it stands
for, which is that byte alone. -/
theorem encodeRune_ascii_byte (c : Char) (b : Byte) (hb : b ∈ encodeRune c)
    (hlt : b.val < 0x80) : c.toNat = b.val ∧ encodeRune c = [b] := by
  have hv : c.toNat < 0xD800 ∨ (0xDFFF < c.toNat ∧ c.toNat < 0x110000) := c.valid
  unfold encodeRune at hb ⊢
  generalize c.toNat = n at hv hb ⊢
  by_cases h1 : n ≤ 0x7F
  · simp only [h1, if_true, List.mem_singleton] at hb ⊢
    subst hb
    exact ⟨by rw [byte_val]; omega, rfl⟩
  · exfalso
    by_cases h2 : n ≤ 0x7FF
    · simp only [h1, h2, if_true, if_false, List.mem_cons, List.not_mem_nil, or_false] at hb
      rcases hb with rfl | rfl <;> rw [byte_val] at hlt <;> omega
    · by_cases h3 : n ≤ 0xFFFF
      · simp only [h1, h2, h3, if_true, if_false, List.mem_cons, List.not_mem_nil, or_false]
          at hb
        rcases hb with rfl | rfl | rfl <;> rw [byte_val] at hlt <;> omega
      · simp only [h1, h2, h3, if_false, List.mem_cons, List.not_mem_nil, or_false] at hb
        rcases hb with rfl | rfl | rfl | rfl <;> rw [byte_val] at hlt <;> omega

/-- The rune of a code point below U+D800 is that code point. -/
theorem char_eq_of_toNat (c d : Char) (h : c.toNat = d.toNat) : c = d := by
  rw [← Char.ofNat_toNat c, ← Char.ofNat_toNat d, h]

theorem encodeRune_no_underscore (c : Char) (hc : c ≠ '_') :
    ∀ b ∈ encodeRune c, b ≠ (0x5F : Byte) := by
  intro b hb hEq
  subst hEq
  have := (encodeRune_ascii_byte c _ hb (by decide)).1
  exact hc (char_eq_of_toNat c '_' this)

theorem encodeRunes_no_capital (qs : List Char) (h : ∀ q ∈ qs, q.isUpper = false) :
    ∀ b ∈ encodeRunes qs, ¬ (0x41 ≤ b.val ∧ b.val ≤ 0x5A) := by
  intro b hb hcap
  obtain ⟨q, hq, hbq⟩ := (mem_encodeRunes qs b).1 hb
  have h1 := (encodeRune_ascii_byte q b hbq (by omega)).1
  have h2 := h q hq
  rw [Bool.eq_false_iff, Ne, isUpper_iff, h1] at h2
  exact h2 hcap

/-! ## Lemmas on `strings.Map` and `strings.ToLower` -/

theorem mapFrom_skip (m : Char → Char) (xs rest : List Byte) :
    mapFrom m xs.length (xs ++ rest) = mapFrom m 0 rest := by
  induction xs with
  | nil => rfl
  | cons x xs ih => simpa [mapFrom] using ih

theorem mapString_encodeRune (m : Char → Char) (c : Char) (rest : List Byte) :
    mapString m (encodeRune c ++ rest) = encodeRune (m c) ++ mapString m rest := by
  have hdec := decode_encode c rest
  obtain ⟨b, tl, hbt⟩ := encodeRune_eq_cons c
  rw [hbt] at hdec
  rw [hbt]
  simp only [List.cons_append] at hdec ⊢
  unfold mapString
  rw [mapFrom, hdec]
  simp only [List.length_cons, Nat.add_sub_cancel]
  rw [mapFrom_skip]

theorem mapString_encodeRunes (m : Char → Char) (qs : List Char) :
    mapString m (encodeRunes qs) = encodeRunes (qs.map m) := by
  induction qs with
  | nil => rfl
  | cons q qs ih =>
    rw [encodeRunes_cons, mapString_encodeRune, ih, List.map_cons, encodeRunes_cons]

/-- What `strings.Map` returns is the encoding of images of the mapping. -/
theorem mapFrom_images (m : Char → Char) (s : List Byte) :
    ∀ k, ∃ qs, mapFrom m k s = encodeRunes qs ∧ ∀ q ∈ qs, ∃ r, q = m r := by
  induction s with
  | nil => intro k; exact ⟨[], by cases k <;> rfl, fun q hq => by simp at hq⟩
  | cons b bs ih =>
    intro k
    cases k with
    | succ k =>
      obtain ⟨qs, h1, h2⟩ := ih k
      exact ⟨qs, by rw [mapFrom, h1], h2⟩
    | zero =>
      obtain ⟨qs, h1, h2⟩ := ih ((decodeRune (b :: bs)).2 - 1)
      refine ⟨m (decodeRune (b :: bs)).1 :: qs, by rw [mapFrom, h1, encodeRunes_cons], ?_⟩
      intro q hq
      rcases List.mem_cons.1 hq with rfl | hq
      · exact ⟨_, rfl⟩
      · exact h2 q hq

theorem lowerByte_props (b : Byte) (hb : b.val < 0x80) :
    (lowerByte b).val < 0x80 ∧ ¬ (0x41 ≤ (lowerByte b).val ∧ (lowerByte b).val ≤ 0x5A) := by
  unfold lowerByte
  split
  · rw [byte_val]; omega
  · exact ⟨hb, by assumption⟩

/-- `strings.ToLower` leaves ASCII bytes without a capital as they are. -/
theorem toLower_of_ascii_clean (lower : Char → Char) (s : List Byte)
    (hascii : ∀ b ∈ s, b.val < 0x80)
    (hclean : ∀ b ∈ s, ¬ (0x41 ≤ b.val ∧ b.val ≤ 0x5A)) :
    toLower lower s = s := by
  have h1 : s.all (fun b => decide (b.val < 0x80)) = true := by
    rw [List.all_eq_true]
    intro b hb
    exact decide_eq_true (hascii b hb)
  have h2 : s.any (fun b => decide (0x41 ≤ b.val ∧ b.val ≤ 0x5A)) = false := by
    rw [Bool.eq_false_iff, Ne, List.any_eq_true]
    rintro ⟨b, hb, hcap⟩
    exact hclean b hb (of_decide_eq_true hcap)
  unfold toLower
  rw [h1, h2]
  rfl

/-- On ASCII bytes `strings.ToLower` yields ASCII bytes without a capital. -/
theorem toLower_ascii (lower : Char → Char) (s : List Byte)
    (hascii : ∀ b ∈ s, b.val < 0x80) :
    ∀ b ∈ toLower lower s, b.val < 0x80 ∧ ¬ (0x41 ≤ b.val ∧ b.val ≤ 0x5A) := by
  have h1 : s.all (fun b => decide (b.val < 0x80)) = true := by
    rw [List.all_eq_true]
    intro b hb
    exact decide_eq_true (hascii b hb)
  intro b hb
  simp only [toLower, h1, if_true] at hb
  split at hb
  · obtain ⟨a, ha, rfl⟩ := List.mem_map.1 hb
    exact lowerByte_props a (hascii a ha)
  · next hany =>
    refine ⟨hascii b hb, fun hcap => hany ?_⟩
    rw [List.any_eq_true]
    exact ⟨b, hb, decide_eq_true hcap⟩

/-- `strings.ToLower` leaves the encoding of runes that the lowering fixes and
that are no ASCII capitals as it is. -/
theorem toLower_encodeRunes_fixed (lower : Char → Char) (qs : List Char)
    (h : ∀ q ∈ qs, lower q = q ∧ q.isUpper = false) :
    toLower lower (encodeRunes qs) = encodeRunes qs := by
  by_cases hascii : ∀ b ∈ encodeRunes qs, b.val < 0x80
  · exact toLower_of_ascii_clean lower _ hascii
      (encodeRunes_no_capital qs (fun q hq => (h q hq).2))
  · have h1 : (encodeRunes qs).all (fun b => decide (b.val < 0x80)) = false := by
      rw [Bool.eq_false_iff, Ne, List.all_eq_true]
      intro hall
      exact hascii (fun b hb => of_decide_eq_true (hall b hb))
    have hmap : qs.map lower = qs := by
      conv_rhs => rw [← List.map_id qs]
      exact List.map_congr_left (fun q hq => (h q hq).1)
    unfold toLower
    rw [h1, mapString_encodeRunes, hmap]
    rfl

/-! ## Lemmas on `strings.Replace` -/

theorem utf8_underscores : utf8 "__" = [(0x5F : Byte), 0x5F] := by decide

theorem utf8_dot : utf8 "." = [(0x2E : Byte)] := by decide

theorem envPrefix_eq :
    envPrefix = [(0x4C : Byte), 0x49, 0x53, 0x54, 0x4D, 0x4F, 0x4E, 0x4B, 0x5F] := by decide

theorem replaceAll_nil : replaceAll [0x5F, 0x5F] [0x2E] [] = [] := by
  simp [replaceAll, replaceFrom]

theorem replaceAll_single (c : Byte) : replaceAll [0x5F, 0x5F] [0x2E] [c] = [c] := by
  simp [replaceAll, replaceFrom]

theorem replaceAll_match (cs : List Byte) :
    replaceAll [0x5F, 0x5F] [0x2E] (0x5F :: 0x5F :: cs)
      = 0x2E :: replaceAll [0x5F, 0x5F] [0x2E] cs := by
  simp [replaceAll, replaceFrom]

theorem replaceAll_skip (c d : Byte) (cs : List Byte) (h : ¬ (c = 0x5F ∧ d = 0x5F)) :
    replaceAll [0x5F, 0x5F] [0x2E] (c :: d :: cs)
      = c :: replaceAll [0x5F, 0x5F] [0x2E] (d :: cs) := by
  simp only [replaceAll, replaceFrom]
  simp
  intro h1 h2
  exact absurd ⟨h1.symm, h2.symm⟩ h

/-- A byte that is not an underscore stays at the head of the result. -/
theorem replaceAll_head (d : Byte) (cs : List Byte) (hd : d ≠ 0x5F) :
    replaceAll [0x5F, 0x5F] [0x2E] (d :: cs)
      = d :: replaceAll [0x5F, 0x5F] [0x2E] cs := by
  cases cs with
  | nil => rw [replaceAll_single, replaceAll_nil]
  | cons e es => exact replaceAll_skip d e es (fun h => hd h.1)

theorem replaceAll_no_double : ∀ l : List Byte,
    ¬ [(0x5F : Byte), 0x5F] <:+: replaceAll [0x5F, 0x5F] [0x2E] l
  | [] => by rw [replaceAll_nil]; simp
  | [c] => by
    rw [replaceAll_single]
    intro h
    have := h.length_le
    simp at this
  | c :: d :: cs => by
    by_cases h : c = 0x5F ∧ d = 0x5F
    · obtain ⟨rfl, rfl⟩ := h
      rw [replaceAll_match, List.infix_cons_iff]
      rintro (hp | hi)
      · rw [List.cons_prefix_cons] at hp
        exact absurd hp.1 (by decide)
      · exact replaceAll_no_double cs hi
    · rw [replaceAll_skip c d cs h, List.infix_cons_iff]
      rintro (hp | hi)
      · rw [List.cons_prefix_cons] at hp
        obtain ⟨hc, hp⟩ := hp
        have hd : d ≠ 0x5F := fun hd => h ⟨hc.symm, hd⟩
        rw [replaceAll_head d cs hd, List.cons_prefix_cons] at hp
        exact hd hp.1.symm
      · exact replaceAll_no_double (d :: cs) hi

theorem replaceAll_fixed : ∀ l : List Byte,
    ¬ [(0x5F : Byte), 0x5F] <:+: l → replaceAll [0x5F, 0x5F] [0x2E] l = l
  | [], _ => replaceAll_nil
  | [c], _ => replaceAll_single c
  | c :: d :: cs, hl => by
    have h : ¬ (c = 0x5F ∧ d = 0x5F) := by
      rintro ⟨rfl, rfl⟩
      exact hl ⟨[], cs, rfl⟩
    rw [replaceAll_skip c d cs h, replaceAll_fixed (d :: cs)]
    intro hi
    exact hl (List.infix_cons hi)

theorem mem_replaceAll : ∀ (l : List Byte) (x : Byte),
    x ∈ replaceAll [0x5F, 0x5F] [0x2E] l → x ∈ l ∨ x = 0x2E
  | [], x, hx => by rw [replaceAll_nil] at hx; exact Or.inl hx
  | [c], x, hx => by rw [replaceAll_single] at hx; exact Or.inl hx
  | c :: d :: cs, x, hx => by
    by_cases h : c = 0x5F ∧ d = 0x5F
    · obtain ⟨rfl, rfl⟩ := h
      rw [replaceAll_match, List.mem_cons] at hx
      rcases hx with hx | hx
      · exact Or.inr hx
      · rcases mem_replaceAll cs x hx with h1 | h1
        · exact Or.inl (List.mem_cons_of_mem _ (List.mem_cons_of_mem _ h1))
        · exact Or.inr h1
    · rw [replaceAll_skip c d cs h, List.mem_cons] at hx
      rcases hx with hx | hx
      · exact Or.inl (hx ▸ List.mem_cons_self _ _)
      · rcases mem_replaceAll (d :: cs) x hx with h1 | h1
        · exact Or.inl (List.mem_cons_of_mem _ h1)
        · exact Or.inr h1

/-- Bytes without an underscore in front of a string are copied. -/
theorem replaceAll_append_clean (xs rest : List Byte) (h : ∀ b ∈ xs, b ≠ (0x5F : Byte)) :
    replaceAll [0x5F, 0x5F] [0x2E] (xs ++ rest)
      = xs ++ replaceAll [0x5F, 0x5F] [0x2E] rest := by
  induction xs with
  | nil => rfl
  | cons x xs ih =>
    rw [List.cons_append, replaceAll_head x _ (h x (List.mem_cons_self _ _)),
      ih (fun b hb => h b (List.mem_cons_of_mem _ hb)), List.cons_append]

theorem encodeRune_underscore : encodeRune '_' = [(0x5F : Byte)] := by decide

theorem encodeRune_dot : encodeRune '.' = [(0x2E : Byte)] := by decide

/-- Replacing in the encoding of runes yields the encoding of runes: those
that were there and dots. -/
theorem replaceAll_encodeRunes : ∀ qs : List Char,
    ∃ qs', replaceAll [0x5F, 0x5F] [0x2E] (encodeRunes qs) = encodeRunes qs'
      ∧ ∀ q ∈ qs', q ∈ qs ∨ q = '.'
  | [] => ⟨[], replaceAll_nil, fun q hq => by simp at hq⟩
  | [q] => by
    by_cases hq : q = '_'
    · subst hq
      refine ⟨['_'], ?_, fun q hq => Or.inl hq⟩
      rw [encodeRunes_cons, encodeRunes_nil, encodeRune_underscore]
      exact replaceAll_single _
    · refine ⟨[q], ?_, fun q hq => Or.inl hq⟩
      rw [encodeRunes_cons, encodeRunes_nil,
        replaceAll_append_clean _ _ (encodeRune_no_underscore q hq), replaceAll_nil]
  | q :: q2 :: qs => by
    by_cases hq : q = '_'
    · subst hq
      by_cases hq2 : q2 = '_'
      · subst hq2
        obtain ⟨qs', h1, h2⟩ := replaceAll_encodeRunes qs
        refine ⟨'.' :: qs', ?_, ?_⟩
        · rw [encodeRunes_cons, encodeRunes_cons, encodeRune_underscore, List.singleton_append,
            List.singleton_append, replaceAll_match, h1, encodeRunes_cons, encodeRune_dot,
            List.singleton_append]
        · intro q hq
          rcases List.mem_cons.1 hq with rfl | hq
          · exact Or.inr rfl
          · rcases h2 q hq with h | h
            · exact Or.inl (List.mem_cons_of_mem _ (List.mem_cons_of_mem _ h))
            · exact Or.inr h
      · obtain ⟨qs', h1, h2⟩ := replaceAll_encodeRunes (q2 :: qs)
        obtain ⟨b, tl, hbt⟩ := encodeRune_eq_cons q2
        have hb : b ≠ (0x5F : Byte) :=
          encodeRune_no_underscore q2 hq2 b (by rw [hbt]; exact List.mem_cons_self _ _)
        refine ⟨'_' :: qs', ?_, ?_⟩
        · have hcons : encodeRunes (q2 :: qs) = b :: (tl ++ encodeRunes qs) := by
            rw [encodeRunes_cons, hbt, List.cons_append]
          rw [encodeRunes_cons ('_'), encodeRune_underscore, List.singleton_append, hcons,
            replaceAll_skip _ b _ (fun h => hb h.2), ← hcons, h1, encodeRunes_cons,
            encodeRune_underscore, List.singleton_append]
        · intro q hq
          rcases List.mem_cons.1 hq with rfl | hq
          · exact Or.inl (List.mem_cons_self _ _)
          · rcases h2 q hq with h | h
            · exact Or.inl (List.mem_cons_of_mem _ h)
            · exact Or.inr h
    · obtain ⟨qs', h1, h2⟩ := replaceAll_encodeRunes (q2 :: qs)
      refine ⟨q :: qs', ?_, ?_⟩
      · rw [encodeRunes_cons, replaceAll_append_clean _ _ (encodeRune_no_underscore q hq), h1,
          encodeRunes_cons]
      · intro x hx
        rcases List.mem_cons.1 hx with rfl | hx
        · exact Or.inl (List.mem_cons_self _ _)
        · rcases h2 x hx with h | h
          · exact Or.inl (List.mem_cons_of_mem _ h)
          · exact Or.inr h

/-- A string without an ASCII capital does not start with the prefix. -/
theorem trimPrefix_of_no_capital (u : List Byte)
    (h : ∀ b ∈ u, ¬ (0x41 ≤ b.val ∧ b.val ≤ 0x5A)) :
    envPrefix.isPrefixOf u = false ∧ trimPrefix envPrefix u = u := by
  have key : envPrefix.isPrefixOf u = false := by
    rw [envPrefix_eq]
    cases u with
    | nil => rfl
    | cons x xs =>
      have hx := h x (List.mem_cons_self _ _)
      have hne : ((0x4C : Byte) == x) = false := by
        rw [beq_eq_false_iff_ne]
        rintro rfl
        exact hx (by decide)
      show (((0x4C : Byte) == x) && _) = false
      rw [hne]; rfl
  exact ⟨key, by simp [trimPrefix, key]⟩

/-- The three facts behind the idempotence of the key mapping. -/
theorem envKey_facts (lower : Char → Char)
    (hfix : ∀ c, lower (lower c) = lower c)
    (hdot : lower '.' = '.')
    (hup : ∀ c, (lower c).isUpper = false)
    (s : List Byte) :
    (∀ b ∈ envKey lower s, ¬ (0x41 ≤ b.val ∧ b.val ≤ 0x5A)) ∧
    toLower lower (envKey lower s) = envKey lower s ∧
    ¬ [(0x5F : Byte), 0x5F] <:+: envKey lower s := by
  have hno : ¬ [(0x5F : Byte), 0x5F] <:+: envKey lower s := by
    unfold envKey
    rw [utf8_underscores, utf8_dot]
    exact replaceAll_no_double _
  by_cases hascii : ∀ b ∈ trimPrefix envPrefix s, b.val < 0x80
  · have ht := toLower_ascii lower _ hascii
    have hu : ∀ b ∈ envKey lower s, b.val < 0x80 ∧ ¬ (0x41 ≤ b.val ∧ b.val ≤ 0x5A) := by
      intro b hb
      unfold envKey at hb
      rw [utf8_underscores, utf8_dot] at hb
      rcases mem_replaceAll _ b hb with h1 | rfl
      · exact ht b h1
      · decide
    exact ⟨fun b hb => (hu b hb).2,
      toLower_of_ascii_clean lower _ (fun b hb => (hu b hb).1) (fun b hb => (hu b hb).2), hno⟩
  · have h1 : (trimPrefix envPrefix s).all (fun b => decide (b.val < 0x80)) = false := by
      rw [Bool.eq_false_iff, Ne, List.all_eq_true]
      intro hall
      exact hascii (fun b hb => of_decide_eq_true (hall b hb))
    obtain ⟨qs, hqs, himg⟩ := mapFrom_images lower (trimPrefix envPrefix s) 0
    obtain ⟨qs', hqs', hmem⟩ := replaceAll_encodeRunes qs
    have hkey : envKey lower s = encodeRunes qs' := by
      unfold envKey toLower
      rw [h1, utf8_underscores, utf8_dot]
      show replaceAll _ _ (mapFrom lower 0 _) = _
      rw [hqs, hqs']
    have hfixed : ∀ q ∈ qs', lower q = q ∧ q.isUpper = false := by
      intro q hq
      rcases hmem q hq with h | rfl
      · obtain ⟨r, rfl⟩ := himg q h
        exact ⟨hfix r, hup r⟩
      · exact ⟨hdot, by decide⟩
    rw [hkey] at hno ⊢
    exact ⟨encodeRunes_no_capital qs' (fun q hq => (hfixed q hq).2),
      toLower_encodeRunes_fixed lower qs' hfixed, hno⟩

/-! ## Lemmas on traces -/

theorem eventsBefore_append_cons (e : Event) (pre post : List Event) (h : e ∉ pre) :
    eventsBefore e (pre ++ e :: post) = pre := by
  induction pre with
  | nil => simp [eventsBefore]
  | cons x xs ih =>
    have hx : x ≠ e := fun hx => h (hx ▸ List.mem_cons_self _ _)
    have hxs : e ∉ xs := fun hm => h (List.mem_cons_of_mem _ hm)
    simp [eventsBefore, hx, ih hxs]

theorem eventsAfter_append_cons (e : Event) (pre post : List Event) (h : e ∉ pre) :
    eventsAfter e (pre ++ e :: post) = post := by
  induction pre with
  | nil => simp [eventsAfter]
  | cons x xs ih =>
    have hx : x ≠ e := fun hx => h (hx ▸ List.mem_cons_self _ _)
    have hxs : e ∉ xs := fun hm => h (List.mem_cons_of_mem _ hm)
    simp [eventsAfter, hx, ih hxs]

theorem closeMessengers_eq_map (l : Registry) :
    closeMessengers l = l.map (fun p => Event.messengerClose p.1 p.2) := by
  induction l with
  | nil => rfl
  | cons p l ih => obtain ⟨k, m⟩ := p; simp [closeMessengers, ih]

theorem mem_closeMessengers (l : Registry) (ev : Event) :
    ev ∈ closeMessengers l ↔ ∃ p ∈ l, ev = Event.messengerClose p.1 p.2 := by
  rw [closeMessengers_eq_map, List.mem_map]
  constructor
  · rintro ⟨p, hp, rfl⟩; exact ⟨p, hp, rfl⟩
  · rintro ⟨p, hp, rfl⟩; exact ⟨p, hp, rfl⟩

theorem shutdownFn_before_db (l : Registry) :
    eventsBefore .dbClose (shutdownFn l) = [.cronStop, .srvShutdown, .managerClose] := by
  have h : shutdownFn l = [Event.cronStop, .srvShutdown, .managerClose]
      ++ Event.dbClose :: (closeMessengers l ++ [.closerWaitSend, .ctxCancel]) := by
    simp [shutdownFn]
  rw [h]
  exact eventsBefore_append_cons _ _ _ (by decide)

theorem shutdownFn_after_db (l : Registry) :
    eventsAfter .dbClose (shutdownFn l)
      = closeMessengers l ++ [.closerWaitSend, .ctxCancel] := by
  have h : shutdownFn l = [Event.cronStop, .srvShutdown, .managerClose]
      ++ Event.dbClose :: (closeMessengers l ++ [.closerWaitSend, .ctxCancel]) := by
    simp [shutdownFn]
  rw [h]
  exact eventsAfter_append_cons _ _ _ (by decide)

theorem shutdownFn_after_cronStop (l : Registry) :
    eventsAfter .cronStop (shutdownFn l)
      = [.srvShutdown, .managerClose, .dbClose] ++ closeMessengers l
          ++ [.closerWaitSend, .ctxCancel] := by
  simp [shutdownFn, eventsAfter]

/-! ## Lemmas on the registry -/

theorem regGet_regSet (r : Registry) (k k' : String) (m : Messenger) :
    regGet (regSet r k m) k' = if k = k' then some m else regGet r k' := by
  induction r with
  | nil => simp [regSet, regGet]
  | cons p r ih =>
    obtain ⟨j, n⟩ := p
    by_cases hj : j = k
    · subst hj
      by_cases hk : j = k' <;> simp [regSet, regGet, hk]
    · by_cases hk : k = k'
      · subst hk; simp [regSet, regGet, hj, ih]
      · simp [regSet, regGet, hj, ih, hk]

theorem keys_regSet (r : Registry) (k j : String) (m : Messenger) :
    j ∈ (regSet r k m).map Prod.fst ↔ j = k ∨ j ∈ r.map Prod.fst := by
  induction r with
  | nil => simp [regSet]
  | cons p r ih =>
    obtain ⟨i, n⟩ := p
    by_cases hi : i = k
    · subst hi; simp [regSet]
    · simp only [regSet, hi, if_false, List.map_cons, List.mem_cons, ih]
      tauto

theorem wf_regSet (r : Registry) (k : String) (m : Messenger) (h : r.WF) :
    (regSet r k m).WF := by
  induction r with
  | nil => simp [regSet, Registry.WF]
  | cons p r ih =>
    obtain ⟨i, n⟩ := p
    simp only [Registry.WF, List.map_cons, List.nodup_cons] at h
    by_cases hi : i = k
    · subst hi
      simpa [regSet, Registry.WF] using h
    · simp only [regSet, hi, if_false, Registry.WF, List.map_cons, List.nodup_cons]
      refine ⟨?_, ih h.2⟩
      rw [keys_regSet]
      rintro (h1 | h1)
      · exact hi h1
      · exact h.1 h1

theorem regGet_eq_some_iff (r : Registry) (h : r.WF) (k : String) (m : Messenger) :
    regGet r k = some m ↔ (k, m) ∈ r := by
  induction r with
  | nil => simp [regGet]
  | cons p r ih =>
    obtain ⟨i, n⟩ := p
    simp only [Registry.WF, List.map_cons, List.nodup_cons] at h
    by_cases hi : i = k
    · subst hi
      simp only [regGet, if_true, Option.some.injEq, List.mem_cons, Prod.mk.injEq, true_and]
      constructor
      · intro h1; exact Or.inl h1.symm
      · rintro (h1 | h1)
        · exact h1.symm
        · exact absurd (List.mem_map_of_mem Prod.fst h1) h.1
    · simp only [regGet, hi, if_false, List.mem_cons, Prod.mk.injEq, ih h.2]
      constructor
      · intro h1; exact Or.inr h1
      · rintro (h1 | h1)
        · exact absurd h1.1.symm hi
        · exact h1

theorem regGet_foldl (posts : List Messenger) (r : Registry) (k : String) :
    regGet (posts.foldl (fun r m => regSet r m.name m) r) k
      = match lastRegistered k (posts.map (fun m => (m.name, m))) with
        | some m => some m
        | none => regGet r k := by
  induction posts generalizing r with
  | nil => simp [lastRegistered]
  | cons p posts ih =>
    simp only [List.foldl_cons, List.map_cons, lastRegistered, ih, regGet_regSet]
    cases lastRegistered k (posts.map (fun m => (m.name, m))) with
    | some m' => rfl
    | none =>
      by_cases hp : p.name = k <;> simp [hp]

theorem wf_foldl (posts : List Messenger) (r : Registry) (h : r.WF) :
    (posts.foldl (fun r m => regSet r m.name m) r).WF := by
  induction posts generalizing r with
  | nil => exact h
  | cons p posts ih => exact ih _ (wf_regSet r p.name p h)

theorem wf_populate (smtp : Messenger) (posts : List Messenger) :
    (populate smtp posts).WF :=
  wf_foldl posts _ (wf_regSet [] emailMsgr smtp (by simp [Registry.WF]))

theorem regGet_populate (smtp : Messenger) (posts : List Messenger) (k : String) :
    regGet (populate smtp posts) k = lastRegistered k (registrations smtp posts) := by
  simp only [populate, regGet_foldl, registrations, lastRegistered, regGet_regSet, regGet]

theorem lastRegistered_some (posts : List Messenger) (k : String) (m : Messenger)
    (h : lastRegistered k (posts.map (fun m => (m.name, m))) = some m) :
    m ∈ posts ∧ m.name = k := by
  induction posts with
  | nil => simp [lastRegistered] at h
  | cons p posts ih =>
    simp only [List.map_cons, lastRegistered] at h
    cases hl : lastRegistered k (posts.map (fun m => (m.name, m))) with
    | some m' =>
      rw [hl] at h
      simp only [Option.some.injEq] at h
      subst h
      exact ⟨List.mem_cons_of_mem _ (ih hl).1, (ih hl).2⟩
    | none =>
      rw [hl] at h
      by_cases hp : p.name = k
      · simp only [hp, if_true, Option.some.injEq] at h
        subst h
        exact ⟨List.mem_cons_self _ _, hp⟩
      · simp [hp] at h

theorem lastRegistered_none (posts : List Messenger) (k : String) :
    lastRegistered k (posts.map (fun m => (m.name, m))) = none ↔ ∀ m ∈ posts, m.name ≠ k := by
  induction posts with
  | nil => simp [lastRegistered]
  | cons p posts ih =>
    simp only [List.map_cons, lastRegistered, List.mem_cons, forall_eq_or_imp]
    cases hl : lastRegistered k (posts.map (fun m => (m.name, m))) with
    | some m' =>
      rw [hl] at ih
      constructor
      · intro h; exact absurd h (by simp)
      · intro h; exact ih.2 h.2
    | none =>
      rw [hl] at ih
      have hposts := ih.1 rfl
      by_cases hp : p.name = k
      · simp [hp]
      · simp only [hp, if_false, true_iff]
        exact ⟨hp, hposts⟩

/-- A predicate on events: a close attempt recorded for the name `k`. -/
theorem countP_closesName (l : Registry) (k : String) :
    (closeMessengers l).countP (closesName k) = (l.map Prod.fst).count k := by
  induction l with
  | nil => rfl
  | cons p l ih =>
    obtain ⟨j, n⟩ := p
    by_cases hj : j = k
    · subst hj; simp [closeMessengers, closesName, ih]
    · simp [closeMessengers, closesName, ih, hj, List.count_cons]

/-! ## Lemmas on `init`, `main` and `boot` -/

theorem init_all_inInit (env : Env) : (init env).trace.all Event.inInit = true := by
  obtain ⟨v, nc, nce, ele, ins, sch, up, gs, bae, be, smtp, pbs, cae, cu⟩ := env
  cases v <;> cases nc <;> cases ele <;> cases ins <;> cases sch <;> cases up <;> cases gs <;>
    rfl

theorem init_inInit (env : Env) : ∀ ev ∈ (init env).trace, ev.inInit = true := by
  have h := init_all_inInit env
  rw [List.all_eq_true] at h
  exact h

/-- A call of `init` neither closes anything nor starts a worker or the listener. -/
theorem inInit_props (ev : Event) (h : ev.inInit = true) :
    ev.isClose = false ∧ ev.isStart = false := by
  cases ev <;> simp_all [Event.inInit, Event.isClose, Event.isStart]

theorem mainHead_props : ∀ ev ∈ mainHead, BeforeListener ev := by
  decide

theorem mainServices_props (env : Env) : ∀ ev ∈ mainServices env, BeforeListener ev := by
  intro ev hev
  simp only [mainServices, List.mem_append] at hev
  rcases hev with hev | hev
  · revert ev; decide
  · split at hev
    · revert ev; decide
    · simp at hev

theorem mainMessengers_props (env : Env) (addOrder : Registry) :
    ∀ ev ∈ mainMessengers env addOrder, BeforeListener ev := by
  intro ev hev
  simp only [mainMessengers, List.mem_append, List.mem_map, List.mem_cons] at hev
  rcases hev with ((rfl | rfl | rfl | hev) | ⟨m, _, rfl⟩) | ⟨p, _, rfl⟩
  · exact ⟨rfl, rfl, Event.noConfusion⟩
  · exact ⟨rfl, rfl, Event.noConfusion⟩
  · exact ⟨rfl, rfl, Event.noConfusion⟩
  · simp at hev
  · exact ⟨rfl, rfl, Event.noConfusion⟩
  · exact ⟨rfl, rfl, Event.noConfusion⟩

theorem mainCronJobs_props (env : Env) : ∀ ev ∈ mainCronJobs env, BeforeListener ev := by
  intro ev hev
  simp only [mainCronJobs, List.mem_append, List.mem_flatten, List.mem_map, List.mem_singleton]
    at hev
  rcases hev with (rfl | ⟨l, ⟨spec, _, rfl⟩, hev⟩) | rfl
  · exact ⟨rfl, rfl, Event.noConfusion⟩
  · unfold addWeekdayJob at hev
    split at hev
    · simp only [List.mem_cons, List.mem_singleton, List.not_mem_nil, or_false] at hev
      rcases hev with rfl | rfl <;> exact ⟨rfl, rfl, Event.noConfusion⟩
    · simp only [List.mem_singleton] at hev
      subst hev
      exact ⟨rfl, rfl, Event.noConfusion⟩
  · exact ⟨rfl, rfl, Event.noConfusion⟩

theorem mainSetup_props (env : Env) (addOrder : Registry) :
    ∀ ev ∈ mainSetup env addOrder, BeforeListener ev := by
  intro ev hev
  simp only [mainSetup, List.mem_append] at hev
  rcases hev with ((hev | hev) | hev) | hev
  · exact mainHead_props ev hev
  · exact mainServices_props env ev hev
  · exact mainMessengers_props env addOrder ev hev
  · revert ev; decide

/-- The calls of `main` before the listener, when nothing fails. -/
theorem mainBefore_props (env : Env) (addOrder : Registry) :
    ∀ ev ∈ mainSetup env addOrder ++ mainCronJobs env, BeforeListener ev := by
  intro ev hev
  rcases List.mem_append.1 hev with hev | hev
  · exact mainSetup_props env addOrder ev hev
  · exact mainCronJobs_props env ev hev

/-- The three ways `main` can go. -/
theorem main_cases (env : Env) (addOrder : Registry) :
    (∃ e, env.bounceActionsErr = some e ∧ main env addOrder
      = ⟨mainHead, [], .fatal .lo ("error unmarshalling bounce config: " ++ e)⟩) ∨
    (env.bounceActionsErr = none ∧ env.cronAddErr "@every 1m" = true ∧ main env addOrder
      = ⟨mainSetup env addOrder ++ [.printError "@every 1m"],
          populate env.smtp env.postbacks, .returned⟩) ∨
    (env.bounceActionsErr = none ∧ env.cronAddErr "@every 1m" = false ∧ main env addOrder
      = ⟨(mainSetup env addOrder ++ mainCronJobs env) ++ Event.initHTTPServer ::
          ((if env.checkUpdates then [.goCheckUpdates] else [])
            ++ [.signalNotify, .awaitReload]),
          populate env.smtp env.postbacks, .done⟩) := by
  unfold main
  cases hb : env.bounceActionsErr with
  | some e => exact Or.inl ⟨e, rfl, rfl⟩
  | none =>
    cases hc : env.cronAddErr "@every 1m" with
    | true => exact Or.inr (Or.inl ⟨rfl, rfl, by simp⟩)
    | false => exact Or.inr (Or.inr ⟨rfl, rfl, by simp⟩)

theorem main_props (env : Env) (addOrder : Registry) :
    ∀ ev ∈ (main env addOrder).trace, ev.inInit = false ∧ ev.isClose = false := by
  intro ev hev
  rcases main_cases env addOrder with ⟨e, _, h⟩ | ⟨_, _, h⟩ | ⟨_, _, h⟩
  · rw [h] at hev
    exact ⟨(mainHead_props ev hev).1, (mainHead_props ev hev).2.1⟩
  · rw [h] at hev
    rcases List.mem_append.1 hev with hev | hev
    · exact ⟨(mainSetup_props env addOrder ev hev).1, (mainSetup_props env addOrder ev hev).2.1⟩
    · simp only [List.mem_singleton] at hev
      subst hev; exact ⟨rfl, rfl⟩
  · rw [h] at hev
    simp only [List.mem_append, List.mem_cons, List.not_mem_nil, or_false] at hev
    rcases hev with hev | rfl | hev | rfl | rfl
    · have := mainBefore_props env addOrder ev (List.mem_append.2 hev)
      exact ⟨this.1, this.2.1⟩
    · exact ⟨rfl, rfl⟩
    · split at hev
      · simp only [List.mem_singleton] at hev
        subst hev; exact ⟨rfl, rfl⟩
      · simp at hev
    · exact ⟨rfl, rfl⟩
    · exact ⟨rfl, rfl⟩

theorem boot_trace_cases (env : Env) (addOrder : Registry) :
    ((init env).outcome ≠ .done ∧ boot env addOrder = init env) ∨
    ((init env).outcome = .done ∧
      (boot env addOrder).trace = (init env).trace ++ (main env addOrder).trace ∧
      (boot env addOrder).outcome = (main env addOrder).outcome ∧
      (boot env addOrder).messengers = (main env addOrder).messengers) := by
  unfold boot
  simp only []
  split
  · next h => exact Or.inr ⟨h, rfl, rfl, rfl⟩
  · next h => exact Or.inl ⟨h, rfl⟩

/-- Nothing is closed or stopped during bootstrap. -/
theorem boot_no_close (env : Env) (addOrder : Registry) :
    ∀ ev ∈ (boot env addOrder).trace, ev.isClose = false := by
  intro ev hev
  rcases boot_trace_cases env addOrder with ⟨_, h⟩ | ⟨_, h, _, _⟩
  · rw [h] at hev
    exact (inInit_props ev (init_inInit env ev hev)).1
  · rw [h, List.mem_append] at hev
    rcases hev with hev | hev
    · exact (inInit_props ev (init_inInit env ev hev)).1
    · exact (main_props env addOrder ev hev).2

theorem keys_foldl (posts : List Messenger) (r : Registry) (j : String) :
    j ∈ (posts.foldl (fun r m => regSet r m.name m) r).map Prod.fst
      ↔ j ∈ r.map Prod.fst ∨ ∃ m ∈ posts, m.name = j := by
  induction posts generalizing r with
  | nil => simp
  | cons p posts ih =>
    simp only [List.foldl_cons, ih, keys_regSet, List.mem_cons, exists_eq_or_imp]
    constructor
    · rintro ((h | h) | h)
      · exact Or.inr (Or.inl h.symm)
      · exact Or.inl h
      · exact Or.inr (Or.inr h)
    · rintro (h | h | h)
      · exact Or.inl (Or.inr h)
      · exact Or.inl (Or.inl h.symm)
      · exact Or.inr h

theorem keys_populate (smtp : Messenger) (posts : List Messenger) (j : String) :
    j ∈ (populate smtp posts).map Prod.fst ↔ j ∈ (registrations smtp posts).map Prod.fst := by
  unfold populate
  rw [keys_foldl, keys_regSet]
  simp only [registrations, List.map_cons, List.mem_cons, List.map_map, List.mem_map,
    Function.comp, List.map_nil, List.not_mem_nil, or_false]

/-- The close attempts recorded for a name are those of the messenger loop. -/
theorem countP_shutdownFn (l : Registry) (k : String) :
    (shutdownFn l).countP (closesName k) = (l.map Prod.fst).count k := by
  simp [shutdownFn, List.countP_append, countP_closesName, List.countP_cons, closesName]

/-- Each entry of a Go map is closed once, whatever the order of the `range`. -/
theorem count_close_of_perm (reg closeOrder : Registry) (hwf : reg.WF)
    (hperm : closeOrder.Perm reg) (p : String × Messenger) (hp : p ∈ reg) :
    (shutdownFn closeOrder).count (Event.messengerClose p.1 p.2) = 1 := by
  have hinj : Function.Injective
      (fun p : String × Messenger => Event.messengerClose p.1 p.2) := by
    rintro ⟨k, m⟩ ⟨k', m'⟩ h
    simp only [Event.messengerClose.injEq] at h
    exact Prod.ext h.1 h.2
  have hnd : reg.Nodup := List.Nodup.of_map _ hwf
  have hc : (closeMessengers closeOrder).count (Event.messengerClose p.1 p.2) = 1 := by
    rw [closeMessengers_eq_map,
      List.count_map_of_injective closeOrder _ hinj p, hperm.count_eq]
    exact List.count_eq_one_of_mem hnd hp
  simp [shutdownFn, List.count_append, hc, List.count_cons]

theorem mem_shutdownFn_close (l : Registry) (k : String) (m : Messenger) :
    Event.messengerClose k m ∈ shutdownFn l ↔ (k, m) ∈ l := by
  simp only [shutdownFn, List.mem_append, List.mem_cons, mem_closeMessengers]
  constructor
  · rintro ((h | ⟨p, hp, h⟩) | h)
    · simp at h
    · simp only [Event.messengerClose.injEq] at h
      obtain ⟨rfl, rfl⟩ := h
      exact hp
    · simp at h
  · intro h
    exact Or.inl (Or.inr ⟨(k, m), h, rfl⟩)

/-- A failing schema check ends `init` there, with exit status 1. -/
theorem init_schema_fail (env : Env) (h : env.schema ≠ .ok) :
    (init env).outcome ≠ .done ∧
    (Event.checkSchema ∈ (init env).trace →
      (init env).trace.getLast? = some .checkSchema ∧
      (init env).outcome.status = some 1) := by
  obtain ⟨v, nc, nce, ele, ins, sch, up, gs, bae, be, smtp, pbs, cae, cu⟩ := env
  cases sch <;> cases v <;> cases nc <;> cases nce <;> cases ele <;> cases ins <;>
    simp [init, Outcome.status] at h ⊢

theorem init_schema_notOk (env : Env) (h : env.schema = .notOk) :
    (Event.checkSchema ∈ (init env).trace → (init env).outcome
      = .fatal .lo "the database does not appear to be set up. Run --install.") ∧
    Event.readQueries ∉ (init env).trace ∧ Event.prepareQueries ∉ (init env).trace := by
  obtain ⟨v, nc, nce, ele, ins, sch, up, gs, bae, be, smtp, pbs, cae, cu⟩ := env
  simp only at h
  subst h
  cases v <;> cases nc <;> cases ele <;> cases ins <;> simp [init]

theorem init_schema_err (env : Env) (e : String) (h : env.schema = .err e) :
    Event.checkSchema ∈ (init env).trace →
      (init env).outcome = .fatal .std ("error checking schema in DB: " ++ e) := by
  obtain ⟨v, nc, nce, ele, ins, sch, up, gs, bae, be, smtp, pbs, cae, cu⟩ := env
  simp only at h
  subst h
  cases v <;> cases nc <;> cases ele <;> cases ins <;> simp [init]

/-- The line logged for a failing check never reads like the line logged for
a database that is not set up. -/
theorem schema_lines_differ (e : String) :
    "error checking schema in DB: " ++ e
      ≠ "the database does not appear to be set up. Run --install." := by
  intro h
  have h1 := congrArg (fun s => s.data.head?) h
  simp [String.data_append] at h1

/-- Signals that arrive while the coordinator is shutting down change nothing. -/
theorem awaitReload_discards (shutdown : List Event) (c : Coordinator)
    (hc : c.state = .ShuttingDown) (n : Nat) :
    (List.replicate n Signal.notification).foldl (awaitReloadStep shutdown) c = c := by
  induction n with
  | zero => rfl
  | succ n ih =>
    rw [List.replicate_succ, List.foldl_cons]
    have : awaitReloadStep shutdown c .notification = c := by
      simp [awaitReloadStep, hc]
    rw [this, ih]

/-! ## The claims -/

/-- C1 (as stated, refuted): with one messenger in the registry the close of
`app.db` is not after the close of that messenger; the messenger is closed
after the storage pool. -/
theorem db_close_not_last_counterexample :
    ¬ (∀ p ∈ [("email", smtpSample)],
        Event.messengerClose p.1 p.2 ∈ eventsBefore .dbClose
          (shutdownFn [("email", smtpSample)])) ∧
    Event.messengerClose "email" smtpSample ∈ eventsAfter .dbClose
      (shutdownFn [("email", smtpSample)]) := by
  decide

/-- C1 (amended): for every registry content the close of `app.db` comes
after the cron stop, the listener shutdown and the campaign manager close
and nothing else, and every messenger close and the send on `closerWait`
come after it. -/
theorem db_close_before_messengers (closeOrder : Registry) :
    eventsBefore .dbClose (shutdownFn closeOrder)
      = [.cronStop, .srvShutdown, .managerClose] ∧
    (∀ p ∈ closeOrder,
      Event.messengerClose p.1 p.2 ∈ eventsAfter .dbClose (shutdownFn closeOrder)) ∧
    (∀ k m, Event.messengerClose k m ∉ eventsBefore .dbClose (shutdownFn closeOrder)) ∧
    Event.dbClose ∉ eventsAfter .dbClose (shutdownFn closeOrder) ∧
    Event.closerWaitSend ∈ eventsAfter .dbClose (shutdownFn closeOrder) := by
  rw [shutdownFn_before_db, shutdownFn_after_db]
  refine ⟨rfl, ?_, ?_, ?_, ?_⟩
  · intro p hp
    exact List.mem_append_left _ ((mem_closeMessengers _ _).2 ⟨p, hp, rfl⟩)
  · intro k m; simp
  · simp [mem_closeMessengers]
  · simp

/-- C2: for every registry content the cron stop is the first step of the
shutdown closure: nothing precedes it, and the listener shutdown, the
campaign manager close, the storage pool close and every messenger close
come after it. -/
theorem cron_stop_first (closeOrder : Registry) :
    (shutdownFn closeOrder).head? = some .cronStop ∧
    eventsBefore .cronStop (shutdownFn closeOrder) = [] ∧
    Event.srvShutdown ∈ eventsAfter .cronStop (shutdownFn closeOrder) ∧
    Event.managerClose ∈ eventsAfter .cronStop (shutdownFn closeOrder) ∧
    Event.dbClose ∈ eventsAfter .cronStop (shutdownFn closeOrder) ∧
    (∀ p ∈ closeOrder,
      Event.messengerClose p.1 p.2 ∈ eventsAfter .cronStop (shutdownFn closeOrder)) := by
  rw [shutdownFn_after_cronStop]
  refine ⟨rfl, by simp [shutdownFn, eventsBefore], by simp, by simp, by simp, ?_⟩
  intro p hp
  exact List.mem_append_left _ (List.mem_append_right _
    ((mem_closeMessengers _ _).2 ⟨p, hp, rfl⟩))

/-- C3: for every registry (a Go map: distinct keys), every assignment of
close outcomes to its entries and every order in which the `range` yields
the entries, the shutdown closure makes exactly one close attempt on each
entry and none on anything else, and the one send on `closerWait` follows
the storage pool close and all of the close attempts. -/
theorem shutdown_closes_each_entry_once (reg closeOrder : Registry)
    (hwf : reg.WF) (hperm : closeOrder.Perm reg) :
    (∀ p ∈ reg, (shutdownFn closeOrder).count (Event.messengerClose p.1 p.2) = 1) ∧
    (∀ k m, Event.messengerClose k m ∈ shutdownFn closeOrder → (k, m) ∈ reg) ∧
    (shutdownFn closeOrder).count .closerWaitSend = 1 ∧
    eventsBefore .closerWaitSend (shutdownFn closeOrder)
      = [.cronStop, .srvShutdown, .managerClose, .dbClose] ++ closeMessengers closeOrder := by
  refine ⟨fun p hp => count_close_of_perm reg closeOrder hwf hperm p hp, ?_, ?_, ?_⟩
  · intro k m h
    exact hperm.subset ((mem_shutdownFn_close closeOrder k m).1 h)
  · have h0 : (closeMessengers closeOrder).count Event.closerWaitSend = 0 := by
      rw [List.count_eq_zero, mem_closeMessengers]
      rintro ⟨p, _, h⟩
      exact Event.noConfusion h
    simp [shutdownFn, List.count_append, h0, List.count_cons]
  · have h : shutdownFn closeOrder
        = ([Event.cronStop, .srvShutdown, .managerClose, .dbClose] ++ closeMessengers closeOrder)
          ++ Event.closerWaitSend :: [.ctxCancel] := by
      simp [shutdownFn]
    rw [h]
    apply eventsBefore_append_cons
    simp [mem_closeMessengers]

/-- C3, at a registry of three messengers in which the entry that fails to
close is the first one the `range` yields. -/
theorem shutdown_closes_each_entry_once_witness :
    Registry.WF [("email", smtpSample), ("hook", postbackEmail), ("sms", postbackSms)] ∧
    List.Perm [("hook", postbackEmail), ("sms", postbackSms), ("email", smtpSample)]
      [("email", smtpSample), ("hook", postbackEmail), ("sms", postbackSms)] ∧
    postbackEmail.closeFails = true ∧
    (∀ p ∈ [("email", smtpSample), ("hook", postbackEmail), ("sms", postbackSms)],
      (shutdownFn [("hook", postbackEmail), ("sms", postbackSms), ("email", smtpSample)]).count
        (Event.messengerClose p.1 p.2) = 1) :=
  ⟨by decide, by decide, rfl,
    (shutdown_closes_each_entry_once
      [("email", smtpSample), ("hook", postbackEmail), ("sms", postbackSms)]
      [("hook", postbackEmail), ("sms", postbackSms), ("email", smtpSample)]
      (by decide) (by decide)).1⟩

/-- C4: registry population is last-writer-wins keyed by name: after the
SMTP messenger is registered under `email` and every postback messenger
under its `Name()`, each name maps to the last messenger registered with
it; for an SMTP instance that is not itself among the postback messengers,
`email` maps to it exactly when no postback messenger is named `email`;
and whatever the order of the `range`, shutdown records exactly one close
attempt for each registered name and none for any other name. -/
theorem registry_last_writer_wins (smtp : Messenger) (posts : List Messenger)
    (closeOrder : Registry) (hperm : closeOrder.Perm (populate smtp posts)) :
    (∀ k, regGet (populate smtp posts) k = lastRegistered k (registrations smtp posts)) ∧
    (smtp ∉ posts →
      (regGet (populate smtp posts) emailMsgr = some smtp
        ↔ ∀ m ∈ posts, m.name ≠ emailMsgr)) ∧
    (∀ p ∈ registrations smtp posts,
      (shutdownFn closeOrder).countP (closesName p.1) = 1) ∧
    (∀ k, k ∉ (registrations smtp posts).map Prod.fst →
      (shutdownFn closeOrder).countP (closesName k) = 0) := by
  have hcount : ∀ k, (shutdownFn closeOrder).countP (closesName k)
      = ((populate smtp posts).map Prod.fst).count k := by
    intro k
    rw [countP_shutdownFn]
    exact (hperm.map Prod.fst).count_eq k
  refine ⟨regGet_populate smtp posts, ?_, ?_, ?_⟩
  · intro hfresh
    rw [regGet_populate]
    simp only [registrations, lastRegistered]
    cases hl : lastRegistered emailMsgr (posts.map (fun m => (m.name, m))) with
    | some m' =>
      have hm' := lastRegistered_some posts emailMsgr m' hl
      constructor
      · intro h
        simp only [Option.some.injEq] at h
        subst h
        exact absurd hm'.1 hfresh
      · intro h
        exact absurd hm'.2 (h m' hm'.1)
    | none =>
      simp only [if_true, true_iff]
      exact (lastRegistered_none posts emailMsgr).1 hl
  · intro p hp
    rw [hcount]
    apply List.count_eq_one_of_mem (wf_populate smtp posts)
    rw [keys_populate]
    exact List.mem_map_of_mem Prod.fst hp
  · intro k hk
    rw [hcount, List.count_eq_zero, keys_populate]
    exact hk

/-- C4, at the SMTP messenger followed by a postback messenger named `sms`
and one named `email`. -/
theorem registry_last_writer_wins_witness :
    List.Perm [("sms", postbackSms), ("email", postbackEmail)]
      (populate smtpSample [postbackSms, postbackEmail]) ∧
    regGet (populate smtpSample [postbackSms, postbackEmail]) "email" = some postbackEmail ∧
    (shutdownFn [("sms", postbackSms), ("email", postbackEmail)]).countP (closesName "email")
      = 1 :=
  ⟨by decide, by decide,
    (registry_last_writer_wins smtpSample [postbackSms, postbackEmail]
      [("sms", postbackSms), ("email", postbackEmail)] (by decide)).2.2.1
      ("email", smtpSample) (by decide)⟩

/-- C5 (as stated, refuted): with a postback messenger named `email` the
SMTP messenger is overwritten in the registry and receives no close,
neither during bootstrap nor during shutdown. -/
theorem overwritten_messenger_never_closed_counterexample :
    populate envComplete.smtp envComplete.postbacks
      = [("email", postbackEmail), ("sms", postbackSms)] ∧
    ¬ (∀ m ∈ envComplete.smtp :: envComplete.postbacks,
        ∃ k, Event.messengerClose k m ∈
          (boot envComplete [("email", postbackEmail), ("sms", postbackSms)]).trace
            ++ shutdownFn [("email", postbackEmail), ("sms", postbackSms)]) := by
  refine ⟨by decide, ?_⟩
  intro h
  obtain ⟨k, hk⟩ := h smtpSample (List.mem_cons_self _ _)
  rw [List.mem_append, mem_shutdownFn_close] at hk
  rcases hk with hk | hk
  · exact absurd (boot_no_close _ _ _ hk) (by simp [Event.isClose])
  · revert hk
    simp [smtpSample, postbackEmail, postbackSms]

/-- C5 (amended): bootstrap closes no messenger, also not when it
overwrites one; whatever the order of the `range`, shutdown closes exactly
the instances the registry holds, for each name the last one registered
under it, each once. -/
theorem held_messengers_closed_at_shutdown (env : Env) (addOrder closeOrder : Registry)
    (hperm : closeOrder.Perm (populate env.smtp env.postbacks)) :
    (∀ k m, Event.messengerClose k m ∉ (boot env addOrder).trace) ∧
    (∀ k m, Event.messengerClose k m ∈ shutdownFn closeOrder
      ↔ lastRegistered k (registrations env.smtp env.postbacks) = some m) ∧
    (∀ k m, lastRegistered k (registrations env.smtp env.postbacks) = some m →
      (shutdownFn closeOrder).count (Event.messengerClose k m) = 1) := by
  have hwf := wf_populate env.smtp env.postbacks
  refine ⟨?_, ?_, ?_⟩
  · intro k m hmem
    exact absurd (boot_no_close env addOrder _ hmem) (by simp [Event.isClose])
  · intro k m
    rw [mem_shutdownFn_close, ← regGet_populate, regGet_eq_some_iff _ hwf]
    exact ⟨fun h => hperm.subset h, fun h => hperm.symm.subset h⟩
  · intro k m h
    rw [← regGet_populate, regGet_eq_some_iff _ hwf] at h
    exact count_close_of_perm _ _ hwf hperm (k, m) h

/-- C5 (amended), at the SMTP messenger followed by a postback messenger
named `sms` and one named `email`. -/
theorem held_messengers_closed_at_shutdown_witness :
    List.Perm [("sms", postbackSms), ("email", postbackEmail)]
      (populate envComplete.smtp envComplete.postbacks) ∧
    lastRegistered "email" (registrations envComplete.smtp envComplete.postbacks)
      = some postbackEmail ∧
    (Event.messengerClose "email" postbackEmail ∈
        shutdownFn [("sms", postbackSms), ("email", postbackEmail)]
      ↔ lastRegistered "email" (registrations envComplete.smtp envComplete.postbacks)
          = some postbackEmail) ∧
    (Event.messengerClose "email" smtpSample ∈
        shutdownFn [("sms", postbackSms), ("email", postbackEmail)]
      ↔ lastRegistered "email" (registrations envComplete.smtp envComplete.postbacks)
          = some smtpSample) :=
  ⟨by decide, by decide,
    (held_messengers_closed_at_shutdown envComplete []
      [("sms", postbackSms), ("email", postbackEmail)] (by decide)).2.1 "email" postbackEmail,
    (held_messengers_closed_at_shutdown envComplete []
      [("sms", postbackSms), ("email", postbackEmail)] (by decide)).2.1 "email" smtpSample⟩

/-- C6: in every run the listener is started only after its dependencies:
when `initHTTPServer` is called the registry holds the populated map, and
the construction of the campaign manager, the importer and the notification
templates, the start of the bounce processor when it is enabled, every
assignment to the registry, `AddMessenger` on every entry, the start of the
manager's run loop and `cron.Start()` all precede it; when bootstrap stops
early `initHTTPServer` is never called. -/
theorem listener_started_last (env : Env) (addOrder : Registry)
    (hadd : addOrder.Perm (populate env.smtp env.postbacks)) :
    ((boot env addOrder).outcome ≠ .done →
      Event.initHTTPServer ∉ (boot env addOrder).trace) ∧
    ((boot env addOrder).outcome = .done →
      Event.initHTTPServer ∈ (boot env addOrder).trace) ∧
    (Event.initHTTPServer ∈ (boot env addOrder).trace →
      (boot env addOrder).messengers = populate env.smtp env.postbacks ∧
      (∀ ev ∈ [Event.initCampaignManager, .initImporter, .initNotifTemplates,
          .goManagerRun, .cronStart],
        ev ∈ eventsBefore .initHTTPServer (boot env addOrder).trace) ∧
      (env.bounceEnabled = true →
        Event.goBounceRun ∈ eventsBefore .initHTTPServer (boot env addOrder).trace) ∧
      (∀ p ∈ registrations env.smtp env.postbacks,
        Event.setMessenger p.1 p.2 ∈ eventsBefore .initHTTPServer (boot env addOrder).trace) ∧
      (∀ p ∈ populate env.smtp env.postbacks,
        Event.addMessenger p.2 ∈ eventsBefore .initHTTPServer (boot env addOrder).trace)) := by
  have hinit : Event.initHTTPServer ∉ (init env).trace :=
    fun h => absurd (init_inInit env _ h) (by decide)
  rcases boot_trace_cases env addOrder with ⟨hnd, hb⟩ | ⟨_, ht, ho, hm⟩
  · rw [hb]
    exact ⟨fun _ => hinit, fun h => absurd h hnd, fun h => absurd h hinit⟩
  · rw [ht, ho, hm]
    rcases main_cases env addOrder with ⟨e, _, h⟩ | ⟨_, _, h⟩ | ⟨_, _, h⟩
    · have hno : Event.initHTTPServer ∉ (init env).trace ++ mainHead := by
        rw [List.mem_append]
        rintro (h1 | h1)
        · exact hinit h1
        · exact (mainHead_props _ h1).2.2 rfl
      rw [h]
      exact ⟨fun _ => hno, fun h1 => absurd h1 (by simp), fun h1 => absurd h1 hno⟩
    · have hno : Event.initHTTPServer ∉
          (init env).trace ++ (mainSetup env addOrder ++ [.printError "@every 1m"]) := by
        simp only [List.mem_append, List.mem_singleton]
        rintro (h1 | h1 | h1)
        · exact hinit h1
        · exact (mainSetup_props env addOrder _ h1).2.2 rfl
        · exact Event.noConfusion h1
      rw [h]
      exact ⟨fun _ => hno, fun h1 => absurd h1 (by simp), fun h1 => absurd h1 hno⟩
    · rw [h]
      have hpre : Event.initHTTPServer ∉
          (init env).trace ++ (mainSetup env addOrder ++ mainCronJobs env) := by
        rw [List.mem_append]
        rintro (h1 | h1)
        · exact hinit h1
        · exact (mainBefore_props env addOrder _ h1).2.2 rfl
      have hbefore := eventsBefore_append_cons Event.initHTTPServer _
        ((if env.checkUpdates then [Event.goCheckUpdates] else [])
          ++ [.signalNotify, .awaitReload]) hpre
      simp only [List.append_assoc] at hbefore ⊢
      rw [hbefore]
      refine ⟨fun h1 => absurd rfl h1, by simp, fun _ => ⟨trivial, ?_, ?_, ?_, ?_⟩⟩
      · intro ev hev
        simp only [List.mem_cons, List.not_mem_nil, or_false] at hev
        rcases hev with rfl | rfl | rfl | rfl | rfl <;>
          simp [mainSetup, mainServices, mainCronJobs]
      · intro hbe
        simp [mainSetup, mainServices, hbe]
      · intro p hp
        simp only [registrations, List.mem_cons, List.mem_map] at hp
        rcases hp with rfl | ⟨m, hm, rfl⟩
        · simp [mainSetup, mainMessengers]
        · have : Event.setMessenger m.name m ∈ mainMessengers env addOrder := by
            simp only [mainMessengers, List.mem_append, List.mem_map]
            exact Or.inl (Or.inr ⟨m, hm, rfl⟩)
          simp [mainSetup, this]
      · intro p hp
        have : Event.addMessenger p.2 ∈ mainMessengers env addOrder := by
          simp only [mainMessengers, List.mem_append, List.mem_map]
          exact Or.inr ⟨p, hadd.symm.subset hp, rfl⟩
        simp [mainSetup, this]

/-- C6, at a complete bootstrap with two postback messengers. -/
theorem listener_started_last_witness :
    List.Perm [("sms", postbackSms), ("email", postbackEmail)]
      (populate envComplete.smtp envComplete.postbacks) ∧
    Event.initHTTPServer ∈
      (boot envComplete [("sms", postbackSms), ("email", postbackEmail)]).trace ∧
    Event.cronStart ∈ eventsBefore .initHTTPServer
      (boot envComplete [("sms", postbackSms), ("email", postbackEmail)]).trace :=
  ⟨by decide, by decide,
    ((listener_started_last envComplete [("sms", postbackSms), ("email", postbackEmail)]
      (by decide)).2.2 (by decide)).2.1 .cronStart (by decide)⟩

/-- C7 (as stated, refuted): when the registration of the first cron job
fails, `main` returns with the storage pool opened and the manager and the
bounce processor running, and neither the pool nor the manager has been
closed; and when the schema check reports a database that is not set up,
the process exits with the storage pool opened and not closed. -/
theorem bootstrap_failure_releases_counterexample :
    (boot envNoSchema []).outcome
      = .fatal .lo "the database does not appear to be set up. Run --install." ∧
    Event.initDB ∈ (boot envNoSchema []).trace ∧
    Event.dbClose ∉ (boot envNoSchema []).trace ∧
    (boot envSample [("email", postbackEmail)]).outcome = .returned ∧
    Event.initDB ∈ (boot envSample [("email", postbackEmail)]).trace ∧
    Event.goManagerRun ∈ (boot envSample [("email", postbackEmail)]).trace ∧
    Event.goBounceRun ∈ (boot envSample [("email", postbackEmail)]).trace ∧
    Event.dbClose ∉ (boot envSample [("email", postbackEmail)]).trace ∧
    Event.managerClose ∉ (boot envSample [("email", postbackEmail)]).trace := by
  decide

/-- C7 (amended): bootstrap fails fast and releases nothing: no call of
bootstrap closes or stops anything, and a failing schema check or a failing
unmarshal of `bounce.actions` is the last call of the run, which exits with
status 1, while a failing registration of the first cron job is followed by
the print of the error only, after which `main` returns. -/
theorem bootstrap_fails_fast_without_release (env : Env) (addOrder : Registry) :
    (∀ ev ∈ (boot env addOrder).trace, ev.isClose = false) ∧
    (env.schema ≠ .ok → Event.checkSchema ∈ (boot env addOrder).trace →
      (boot env addOrder).trace.getLast? = some .checkSchema ∧
      (boot env addOrder).outcome.status = some 1) ∧
    (env.bounceActionsErr ≠ none →
      Event.unmarshalBounceActions ∈ (boot env addOrder).trace →
      (boot env addOrder).trace.getLast? = some .unmarshalBounceActions ∧
      (boot env addOrder).outcome.status = some 1) ∧
    (env.cronAddErr "@every 1m" = true →
      Event.cronAddFunc "@every 1m" ∈ (boot env addOrder).trace →
      (boot env addOrder).trace.getLast? = some (.printError "@every 1m") ∧
      (boot env addOrder).outcome = .returned) := by
  refine ⟨boot_no_close env addOrder, ?_, ?_, ?_⟩
  · intro hs hmem
    rcases boot_trace_cases env addOrder with ⟨_, hb⟩ | ⟨hd, _, _, _⟩
    · rw [hb] at hmem ⊢
      exact (init_schema_fail env hs).2 hmem
    · exact absurd hd (init_schema_fail env hs).1
  · intro hs hmem
    rcases boot_trace_cases env addOrder with ⟨_, hb⟩ | ⟨_, ht, ho, _⟩
    · rw [hb] at hmem
      exact absurd (init_inInit env _ hmem) (by decide)
    · rw [ht, ho]
      rcases main_cases env addOrder with ⟨e, _, h⟩ | ⟨hn, _, _⟩ | ⟨hn, _, _⟩
      · rw [h]
        simp [mainHead, Outcome.status]
      · exact absurd hn hs
      · exact absurd hn hs
  · intro hs hmem
    rcases boot_trace_cases env addOrder with ⟨_, hb⟩ | ⟨_, ht, ho, _⟩
    · rw [hb] at hmem
      exact absurd (init_inInit env _ hmem) (by decide)
    · rw [ht] at hmem
      rw [ht, ho]
      rcases main_cases env addOrder with ⟨e, _, h⟩ | ⟨_, _, h⟩ | ⟨_, hn, _⟩
      · rw [h, List.mem_append] at hmem
        rcases hmem with hmem | hmem
        · exact absurd (init_inInit env _ hmem) (by decide)
        · simp [mainHead] at hmem
      · rw [h]
        simp
      · rw [hs] at hn
        exact absurd hn (by decide)

/-- C7 (amended), at a run against a database that is not set up and at a
run whose first cron job cannot be registered. -/
theorem bootstrap_fails_fast_without_release_witness :
    envNoSchema.schema ≠ .ok ∧
    Event.checkSchema ∈ (boot envNoSchema []).trace ∧
    ((boot envNoSchema []).trace.getLast? = some .checkSchema ∧
      (boot envNoSchema []).outcome.status = some 1) ∧
    envSample.cronAddErr "@every 1m" = true ∧
    Event.cronAddFunc "@every 1m" ∈ (boot envSample [("email", postbackEmail)]).trace ∧
    (boot envSample [("email", postbackEmail)]).trace.getLast?
      = some (.printError "@every 1m") ∧
    (boot envSample [("email", postbackEmail)]).outcome = .returned :=
  ⟨by decide, by decide,
    (bootstrap_fails_fast_without_release envNoSchema []).2.1 (by decide) (by decide),
    by decide, by decide,
    (bootstrap_fails_fast_without_release envSample [("email", postbackEmail)]).2.2.2
      (by decide) (by decide)⟩

/-- C8: when `checkSchema` returns not-ok without an error, the run that
reaches the check ends there with the fatal line of the package logger
about a database that is not set up; a run whose check errors ends with a
different fatal line on a different logger; and the run with the not-ok
schema never completes bootstrap, reads or prepares no query and starts no
worker and no listener. -/
theorem schema_not_ok_distinct_failure (env : Env) (addOrder : Registry)
    (h : env.schema = .notOk) :
    (Event.checkSchema ∈ (boot env addOrder).trace →
      (boot env addOrder).outcome
        = .fatal .lo "the database does not appear to be set up. Run --install.") ∧
    (∀ (env' : Env) (addOrder' : Registry) (e : String), env'.schema = .err e →
      Event.checkSchema ∈ (boot env' addOrder').trace →
      (boot env' addOrder').outcome = .fatal .std ("error checking schema in DB: " ++ e) ∧
      "error checking schema in DB: " ++ e
        ≠ "the database does not appear to be set up. Run --install." ∧
      (boot env' addOrder').outcome
        ≠ .fatal .lo "the database does not appear to be set up. Run --install.") ∧
    (boot env addOrder).outcome ≠ .done ∧
    Event.readQueries ∉ (boot env addOrder).trace ∧
    Event.prepareQueries ∉ (boot env addOrder).trace ∧
    (∀ ev ∈ (boot env addOrder).trace, ev.isStart = false) := by
  have hne : env.schema ≠ .ok := by rw [h]; exact SchemaCheck.noConfusion
  have hboot : boot env addOrder = init env := by
    rcases boot_trace_cases env addOrder with ⟨_, hb⟩ | ⟨hd, _⟩
    · exact hb
    · exact absurd hd (init_schema_fail env hne).1
  have hnot := init_schema_notOk env h
  refine ⟨?_, ?_, ?_, ?_, ?_, ?_⟩
  · rw [hboot]; exact hnot.1
  · intro env' addOrder' e he hmem
    have hne' : env'.schema ≠ .ok := by rw [he]; exact SchemaCheck.noConfusion
    have hboot' : boot env' addOrder' = init env' := by
      rcases boot_trace_cases env' addOrder' with ⟨_, hb⟩ | ⟨hd, _⟩
      · exact hb
      · exact absurd hd (init_schema_fail env' hne').1
    rw [hboot'] at hmem ⊢
    rw [init_schema_err env' e he hmem]
    refine ⟨rfl, schema_lines_differ e, ?_⟩
    intro hEq
    simp only [Outcome.fatal.injEq] at hEq
    exact Logger.noConfusion hEq.1
  · rw [hboot]; exact (init_schema_fail env hne).1
  · rw [hboot]; exact hnot.2.1
  · rw [hboot]; exact hnot.2.2
  · rw [hboot]
    intro ev hev
    exact (inInit_props ev (init_inInit env ev hev)).2

/-- C8, at a bootstrap against a database that is not set up. -/
theorem schema_not_ok_distinct_failure_witness :
    envNoSchema.schema = .notOk ∧
    Event.checkSchema ∈ (boot envNoSchema []).trace ∧
    (boot envNoSchema []).outcome
      = .fatal .lo "the database does not appear to be set up. Run --install." :=
  ⟨rfl, by decide,
    (schema_not_ok_distinct_failure envNoSchema [] rfl).1 (by decide)⟩

/-- C9: for every N > 1, N notifications on the reload trigger before the
shutdown function returns invoke it exactly once: the coordinator is the
one that a single notification leaves, shutting down with the calls of one
shutdown, and it terminates with one invocation when the function returns. -/
theorem reload_signals_collapse (shutdown : List Event) (N : Nat) (hN : 1 < N) :
    (awaitReloadRun shutdown (List.replicate N .notification)).invocations = 1 ∧
    (awaitReloadRun shutdown (List.replicate N .notification)).trace = shutdown ∧
    (awaitReloadRun shutdown (List.replicate N .notification)).state = .ShuttingDown ∧
    awaitReloadRun shutdown (List.replicate N .notification)
      = awaitReloadRun shutdown [.notification] ∧
    (awaitReloadRun shutdown
      (List.replicate N .notification ++ [.shutdownReturned])).invocations = 1 ∧
    (awaitReloadRun shutdown
      (List.replicate N .notification ++ [.shutdownReturned])).state = .Terminated := by
  obtain ⟨n, rfl⟩ : ∃ n, N = n + 1 := ⟨N - 1, by omega⟩
  have hrun : awaitReloadRun shutdown (List.replicate (n + 1) .notification)
      = awaitReloadRun shutdown [.notification] := by
    unfold awaitReloadRun
    rw [List.replicate_succ, List.foldl_cons]
    exact awaitReload_discards shutdown _ rfl n
  have hend : awaitReloadRun shutdown (List.replicate (n + 1) .notification ++ [.shutdownReturned])
      = awaitReloadStep shutdown (awaitReloadRun shutdown [.notification]) .shutdownReturned := by
    rw [← hrun]
    simp [awaitReloadRun, List.foldl_append]
  rw [hend, hrun]
  simp [awaitReloadRun, awaitReloadStep, awaitReloadStart]

/-- C9, at three notifications in front of the shutdown closure of an empty
registry. -/
theorem reload_signals_collapse_witness :
    1 < 3 ∧
    (awaitReloadRun (shutdownFn []) (List.replicate 3 .notification)).invocations = 1 :=
  ⟨by decide, (reload_signals_collapse (shutdownFn []) 3 (by decide)).1⟩

/-- C10 (as stated, refuted): the key `ϒ__x` (the bytes CF 92 5F 5F 78) is
mapped to `ϒ.x`, whose first rune U+03D2 is an uppercase letter that has no
lowercase mapping, so the result of the mapping does contain an uppercase
letter. -/
theorem envKey_uppercase_counterexample :
    utf8 "ϒ__x" = [0xCF, 0x92, 0x5F, 0x5F, 0x78] ∧
    envKey unicodeToLower [0xCF, 0x92, 0x5F, 0x5F, 0x78] = [0xCF, 0x92, 0x2E, 0x78] ∧
    runes [0xCF, 0x92, 0x2E, 0x78] = [Char.ofNat 0x3D2, '.', 'x'] ∧
    ¬ (∀ c ∈ runes (envKey unicodeToLower [0xCF, 0x92, 0x5F, 0x5F, 0x78]),
        unicodeIsUpper c = false) := by
  decide

/-- C10 (amended): the environment-variable key mapping of `init` is
idempotent on every byte string, for every rune-lowering table that is
itself idempotent, fixes the dot and never yields an ASCII capital: the
mapped key never starts with `LISTMONK_`, has no ASCII capital among its
bytes and is left as it is by `strings.ToLower`, and has no two adjacent
underscores. -/
theorem envKey_idempotent (lower : Char → Char)
    (hfix : ∀ c, lower (lower c) = lower c)
    (hdot : lower '.' = '.')
    (hup : ∀ c, (lower c).isUpper = false)
    (s : List Byte) :
    envKey lower (envKey lower s) = envKey lower s ∧
    envPrefix.isPrefixOf (envKey lower s) = false ∧
    (∀ b ∈ envKey lower s, ¬ (0x41 ≤ b.val ∧ b.val ≤ 0x5A)) ∧
    toLower lower (envKey lower s) = envKey lower s ∧
    ¬ utf8 "__" <:+: envKey lower s := by
  obtain ⟨hcap, hlow, hno⟩ := envKey_facts lower hfix hdot hup s
  have htrim := trimPrefix_of_no_capital (envKey lower s) hcap
  refine ⟨?_, htrim.1, hcap, hlow, by rw [utf8_underscores]; exact hno⟩
  show replaceAll (utf8 "__") (utf8 ".")
    (toLower lower (trimPrefix envPrefix (envKey lower s))) = envKey lower s
  rw [htrim.2, hlow, utf8_underscores, utf8_dot]
  exact replaceAll_fixed _ hno

/-- C10 (amended), at the lowercase mappings of the Unicode database and a
key with a prefix, two capitals outside ASCII and two bytes that are not
valid UTF-8. -/
theorem envKey_idempotent_witness :
    envKey unicodeToLower (utf8 "LISTMONK_ÉCOLE__İK" ++ [0xFF, 0xC3])
      = utf8 "école.ik" ++ [0xEF, 0xBF, 0xBD, 0xEF, 0xBF, 0xBD] ∧
    envKey unicodeToLower
        (envKey unicodeToLower (utf8 "LISTMONK_ÉCOLE__İK" ++ [0xFF, 0xC3]))
      = envKey unicodeToLower (utf8 "LISTMONK_ÉCOLE__İK" ++ [0xFF, 0xC3]) :=
  ⟨by decide, (envKey_idempotent unicodeToLower unicodeToLower_idem unicodeToLower_dot
    unicodeToLower_not_capital (utf8 "LISTMONK_ÉCOLE__İK" ++ [0xFF, 0xC3])).1⟩

end Listmonk
